import Mathlib

/-!
Verification of the DocFlow documentation-aggregation pipeline
(`src/generators/aggregate.js` and the extraction loop of
`src/cli/commands/aggregate.js`).

The JavaScript code is shallowly embedded: JS strings are Lean `String`s,
string operations are implemented over the underlying `List Char`
(`String.data`), JS objects used as insertion-ordered dictionaries are
association lists, `Map` is an association list with replace-on-set, and
the regular expressions used by the source are implemented operationally
(leftmost match, greedy quantifiers with the backtracking the source
patterns can actually exercise).  Whitespace (`\s`) is modelled as ASCII
whitespace, character comparison as code-point comparison; the source
only ever manipulates ASCII documentation text, where both coincide with
the JS semantics.
-/

set_option linter.unusedVariables false

namespace DocFlow

/-! ## Character-list string primitives -/

/-- ASCII whitespace, the fragment of the JS `\s` class exercised by the
source's markdown inputs. -/
def isWs (c : Char) : Bool :=
  c = ' ' || c = '\t' || c = '\n' || c = '\r' || c = '\x0b' || c = '\x0c'

/-- JS `String.prototype.trim`. -/
def trimChars (cs : List Char) : List Char :=
  ((cs.dropWhile isWs).reverse.dropWhile isWs).reverse

/-- JS `String.prototype.split` with a single-character separator
(keeps empty fields, `"".split(sep) = [""]`). -/
def splitOnChar (sep : Char) : List Char → List (List Char)
  | [] => [[]]
  | c :: rest =>
    let r := splitOnChar sep rest
    if c = sep then [] :: r
    else
      match r with
      | [] => [[c]]
      | h :: t => (c :: h) :: t

/-- JS `String.prototype.replace` with a plain-string pattern: replaces
the first occurrence only. -/
def replaceFirstOcc (pat repl : List Char) (cs : List Char) : List Char :=
  if pat.isPrefixOf cs then repl ++ cs.drop pat.length
  else
    match cs with
    | [] => []
    | c :: rest => c :: replaceFirstOcc pat repl rest

/-- Case-insensitive literal match: strips `kw` from the front of `cs`
comparing characters case-insensitively (the `/i` regex flag). -/
def ciStrip : List Char → List Char → Option (List Char)
  | [], cs => some cs
  | _ :: _, [] => none
  | k :: ks, c :: cs => if k.toLower = c.toLower then ciStrip ks cs else none

/-- Length of the maximal whitespace run at the front of `cs`. -/
def maxWsRun (cs : List Char) : Nat := (cs.takeWhile isWs).length

/-- Node's posix `path.basename`: trailing separators are ignored, then
the part after the last `/` is returned. -/
def basenameCl (cs : List Char) : List Char :=
  let t := (cs.reverse.dropWhile (fun c => c = '/')).reverse
  (t.reverse.takeWhile (fun c => !(c = '/'))).reverse

/-- Does `cs` contain `pat` as a contiguous substring? -/
def containsSub (pat : List Char) : List Char → Bool
  | [] => pat.isEmpty
  | c :: rest => pat.isPrefixOf (c :: rest) || containsSub pat rest

/-! ## Operational embedding of the source's regular expressions -/

/-- Matches `\s*(.+)` (or `\s+(.+)` for `minWs = 1`) at the start of
`cs`, returning the text captured by `(.+)`.  `k` is the number of
whitespace characters the greedy `\s` quantifier currently consumes; the
search starts at `maxWsRun cs` and backtracks downwards, exactly as the
JS engine does.  `.` does not match a newline. -/
def wsCapSearch (minWs : Nat) (cs : List Char) : Nat → Option (List Char)
  | 0 =>
    if minWs = 0 then
      let cap := cs.takeWhile (fun c => !(c = '\n'))
      if cap.isEmpty then none else some cap
    else none
  | k + 1 =>
    if k + 1 < minWs then none
    else
      let after := cs.drop (k + 1)
      let cap := after.takeWhile (fun c => !(c = '\n'))
      if cap.isEmpty then wsCapSearch minWs cs k else some cap

/-- Matches `\s*\n\s*(.+)` at the start of `cs`: the greedy leading
`\s*` backtracks from position `p` (initially `maxWsRun cs`) looking for
a literal `'\n'` whose continuation `\s*(.+)` succeeds. -/
def nlCapSearch (cs : List Char) : Nat → Option (List Char)
  | 0 =>
    match cs with
    | '\n' :: rest => wsCapSearch 0 rest (maxWsRun rest)
    | _ => none
  | p + 1 =>
    match cs.drop (p + 1) with
    | '\n' :: rest =>
      match wsCapSearch 0 rest (maxWsRun rest) with
      | some t => some t
      | none => nlCapSearch cs p
    | _ => nlCapSearch cs p

/-- Tries `/^#\s+(.+)$/` at the start of `cs` (one multiline-anchored
position). -/
def titleAt : List Char → Option (List Char)
  | '#' :: rest => wsCapSearch 1 rest (maxWsRun rest)
  | _ => none

/-- The suffixes of `cs` that start just after each newline, in
left-to-right order: together with `cs` itself these are exactly the
positions where the multiline anchor `^` can match. -/
def lineStartsAux : List Char → List (List Char)
  | [] => []
  | c :: rest =>
    if c = '\n' then rest :: lineStartsAux rest else lineStartsAux rest

/-- First successful `titleAt` over a list of match positions. -/
def firstTitle : List (List Char) → Option (List Char)
  | [] => none
  | p :: rest =>
    match titleAt p with
    | some t => some t
    | none => firstTitle rest

/-- `content.match(/^#\s+(.+)$/m)`: tries the pattern at every line
start, leftmost first, returning the captured group. -/
def matchTitle (cs : List Char) : Option (List Char) :=
  firstTitle (cs :: lineStartsAux cs)

/-- Tries an unanchored pattern at every index, leftmost first (the JS
regex engine's scan loop for patterns without `^`). -/
def scanFor (tryAt : List Char → Option (List Char)) : List Char → Option (List Char)
  | [] => tryAt []
  | c :: rest =>
    match tryAt (c :: rest) with
    | some r => some r
    | none => scanFor tryAt rest

/-- Tries `kw` (case-insensitive) followed by `\s*(.+)` at the start of
`cs` — one position of e.g. `/date:\s*(.+)/i`. -/
def fieldAt (kw : List Char) (cs : List Char) : Option (List Char) :=
  match ciStrip kw cs with
  | some rest => wsCapSearch 0 rest (maxWsRun rest)
  | none => none

/-- `frontmatter.match(/date:\s*(.+)/i)` and friends. -/
def fieldMatch (kw : List Char) (cs : List Char) : Option (List Char) :=
  scanFor (fieldAt kw) cs

/-- One position of `/tags:\s*\[([^\]]+)\]/i`. -/
def tagsAt (cs : List Char) : Option (List Char) :=
  match ciStrip "tags:".data cs with
  | some rest =>
    match rest.drop (maxWsRun rest) with
    | '[' :: r2 =>
      let cap := r2.takeWhile (fun c => !(c = ']'))
      if cap.isEmpty then none
      else
        match r2.drop cap.length with
        | ']' :: _ => some cap
        | _ => none
    | _ => none
  | none => none

/-- `frontmatter.match(/tags:\s*\[([^\]]+)\]/i)`. -/
def tagsMatch (cs : List Char) : Option (List Char) :=
  scanFor tagsAt cs

/-- One position of `/##\s*Status\s*\n\s*(.+)/i` (with `kw` the literal
word, e.g. `status` or `date`). -/
def adrAt (kw : List Char) (cs : List Char) : Option (List Char) :=
  match cs with
  | '#' :: '#' :: rest =>
    match ciStrip kw (rest.drop (maxWsRun rest)) with
    | some rest2 => nlCapSearch rest2 (maxWsRun rest2)
    | none => none
  | _ => none

/-- `content.match(/##\s*Status\s*\n\s*(.+)/i)` (unanchored scan). -/
def adrMatch (kw : List Char) (cs : List Char) : Option (List Char) :=
  scanFor (adrAt kw) cs

/-- Helper for the lazy frontmatter body `([\s\S]+?)` of the pattern
`^---\n([\s\S]+?)\n---`: consume characters until a newline plus three
hyphens follows a nonempty body. -/
def fmBody : List Char → List Char → Option (List Char)
  | acc, rest =>
    if !acc.isEmpty && List.isPrefixOf ['\n', '-', '-', '-'] rest then some acc.reverse
    else
      match rest with
      | [] => none
      | c :: rs => fmBody (c :: acc) rs

/-- The frontmatter match `^---\n([\s\S]+?)\n---` (anchored at the
string start), returning the captured frontmatter block. -/
def frontmatter (cs : List Char) : Option (List Char) :=
  if List.isPrefixOf ['-', '-', '-', '\n'] cs then fmBody [] (cs.drop 4) else none

/-- Search for `/^#\s+.+\n/` (anchored at the string start) used by
`mergeDocumentContent` to strip a leading level-1 heading; `k` is the
number of characters the greedy `\s+` consumes, backtracking downwards.
Returns the content remaining after the matched prefix is removed. -/
def stripH1Search (rest : List Char) : Nat → Option (List Char)
  | 0 => none
  | k + 1 =>
    let after := rest.drop (k + 1)
    let cap := after.takeWhile (fun c => !(c = '\n'))
    if cap.isEmpty then stripH1Search rest k
    else
      match after.drop cap.length with
      | '\n' :: tail => some tail
      | _ => stripH1Search rest k

/-- `content.replace(/^#\s+.+\n/, '')`. -/
def stripLeadingH1 (content : List Char) : List Char :=
  match content with
  | '#' :: rest =>
    match stripH1Search rest (maxWsRun rest) with
    | some r => r
    | none => content
  | _ => content

/-! ## Data model (`Document`, `Metadata`) -/

/-- Metadata extracted from a document (`extractMetadata`'s result
shape): `title` defaults to the empty string, the other fields to
`null` / the empty list. -/
structure Metadata where
  title : String
  date : Option String
  author : Option String
  tags : List String
  status : Option String
deriving Repr, DecidableEq

def emptyMetadata : Metadata :=
  { title := "", date := none, author := none, tags := [], status := none }

/-- A pipeline document.  `sourceRepo`/`sourceRepoName` are `none`
until `mergeDocumentation` tags the document with its contributing
repository (JS `undefined`); `conflictResolution`/`sourceRepos` are set
only by conflict resolution.  The JS `section` field is spelled
`sectionName` (`section` is a Lean keyword). -/
structure Document where
  filename : String
  relativePath : Option String
  absolutePath : Option String
  content : String
  sectionName : String
  sourceRepo : Option String
  sourceRepoName : Option String
  metadata : Metadata
  conflictResolution : Option String
  sourceRepos : Option (List String)
deriving Repr, DecidableEq

/-! ## Extractor: `extractMetadata` -/

/-- `extractMetadata(content, filename)` from
`src/generators/aggregate.js`.  Field updates happen in source order:
title from the first `^#\s+(.+)$/m` match, then the frontmatter fields,
then the ADR-style `## Status` / `## Date` overrides.  The `filename`
parameter is accepted but never used — exactly as in the source. -/
def extractMetadata (content : String) (filename : String) : Metadata :=
  let cs := content.data
  let m0 := emptyMetadata
  let m1 :=
    match matchTitle cs with
    | some t => { m0 with title := String.mk (trimChars t) }
    | none => m0
  let m2 :=
    match frontmatter cs with
    | some fm =>
      let m2a :=
        match fieldMatch "date:".data fm with
        | some v => { m1 with date := some (String.mk (trimChars v)) }
        | none => m1
      let m2b :=
        match fieldMatch "author:".data fm with
        | some v => { m2a with author := some (String.mk (trimChars v)) }
        | none => m2a
      let m2c :=
        match tagsMatch fm with
        | some v =>
          { m2b with
            tags := (splitOnChar ',' v).map
              (fun t => String.mk ((trimChars t).filter (fun c => !(c = '\x27' || c = '"')))) }
        | none => m2b
      match fieldMatch "status:".data fm with
      | some v => { m2c with status := some (String.mk (trimChars v)) }
      | none => m2c
    | none => m1
  let m3 :=
    match adrMatch "status".data cs with
    | some v => { m2 with status := some (String.mk (trimChars v)) }
    | none => m2
  match adrMatch "date".data cs with
  | some v => { m3 with date := some (String.mk (trimChars v)) }
  | none => m3

/-! ## Merger: `mergeDocumentation`, `resolveConflicts`,
`mergeDocumentContent` -/

/-- Insertion-ordered dictionary update, the behavior of
`obj[key].push(...)` / `obj[key] = []` on a JS object with
(non-integer-like) string keys: appends to an existing entry in place,
or appends a new key at the end. -/
def upsertMany {α : Type} : List (String × List α) → String → List α → List (String × List α)
  | [], key, vs => [(key, vs)]
  | (k, l) :: rest, key, vs =>
    if k = key then (k, l ++ vs) :: rest else (k, l) :: upsertMany rest key vs

/-- Lookup in an insertion-ordered dictionary (`obj[key]`, defaulting to
the empty list). -/
def lookupD {α : Type} (m : List (String × List α)) (key : String) : List α :=
  ((m.find? (fun e => e.1 == key)).map (fun e => e.2)).getD []

/-- `repo.split('/').pop()`: the last `/`-separated segment. -/
def lastSeg (s : String) : String :=
  String.mk ((splitOnChar '/' s.data).getLastD [])

/-- `sourceRepoName.replace(/[^a-zA-Z0-9]/g, '-')`. -/
def sanitizeRepoName (s : String) : String :=
  String.mk (s.data.map (fun c => if c.isAlphanum then c else '-'))

/-- `lines.join('\n')`. -/
def joinLines : List String → String
  | [] => ""
  | [l] => l
  | l :: rest => l ++ "\n" ++ joinLines rest

/-- An extraction result for one repository, as assembled by the
aggregate command: `{ repo, repoName, docs }` with `docs` keyed by
section. -/
structure RepoDocs where
  repo : String
  repoName : String
  docs : List (String × List Document)
deriving Repr, DecidableEq

/-- `fileGroups` of `resolveConflicts`: group documents by `filename`,
keys in first-appearance order, each group in original order. -/
def groupByFilename (documents : List Document) : List (String × List Document) :=
  documents.foldl (fun acc d => upsertMany acc d.filename [d]) []

/-- The per-iteration body of `mergeDocumentContent`'s loop: a
`## From {repoName}` subheading, the contributing document's content
with its leading level-1 heading stripped, and a `---` rule between
consecutive entries. -/
def mergeBlocks : List Document → List String
  | [] => []
  | [d] =>
    ["## From " ++ d.sourceRepoName.getD "", "",
     String.mk (stripLeadingH1 d.content.data), ""]
  | d :: rest =>
    ["## From " ++ d.sourceRepoName.getD "", "",
     String.mk (stripLeadingH1 d.content.data), "", "---", ""] ++ mergeBlocks rest

/-- `mergeDocumentContent(docs, filename)`.  `docs` is always a
conflict group (length at least 2) whose members were tagged by
`mergeDocumentation`, so `sourceRepoName` is always set; the `getD`
defaults are never exercised by the pipeline. -/
def mergeDocumentContent (docs : List Document) (filename : String) : String :=
  let title := ((docs.head?).map (fun d => d.metadata.title)).getD ""
  let heading :=
    "# " ++ (if title = "" then String.mk (replaceFirstOcc ".md".data [] filename.data) else title)
  joinLines
    ([heading, "",
      "> **Note**: This document has been aggregated from multiple repositories.", ""]
     ++ mergeBlocks docs)

/-- `resolveConflicts(documents, section)`: size-1 filename groups pass
through; in `adr`/`runbooks` colliding documents are kept with a
sanitized repo-name prefixed filename (`prefixed`); in all other
sections colliding documents are merged into a single document
(`merged`) with no `sourceRepo`. -/
def resolveConflicts (documents : List Document) (sectionName : String) : List Document :=
  let fileGroups := groupByFilename documents
  (fileGroups.map (fun fg =>
    if fg.2.length = 1 then fg.2
    else if sectionName = "adr" || sectionName = "runbooks" then
      fg.2.map (fun d =>
        let repoPref := sanitizeRepoName (d.sourceRepoName.getD "")
        { d with filename := repoPref ++ "-" ++ d.filename,
                 conflictResolution := some "prefixed" })
    else
      [{ filename := fg.1,
         relativePath := none,
         absolutePath := none,
         content := mergeDocumentContent fg.2 fg.1,
         sectionName := sectionName,
         sourceRepo := none,
         sourceRepoName := none,
         metadata := ((fg.2.head?).map (fun d => d.metadata)).getD emptyMetadata,
         conflictResolution := some "merged",
         sourceRepos := some (fg.2.map (fun d => d.sourceRepo.getD "")) }])).flatten

/-- The repo-context tagging of `mergeDocumentation`
(`{ ...doc, sourceRepo: repo, sourceRepoName: repoName }`). -/
def tagDoc (repo repoName : String) (d : Document) : Document :=
  { d with sourceRepo := some repo, sourceRepoName := some repoName }

/-- `mergeDocumentation(allDocs, options)`: flatten per-repo extractions
into a section-keyed dictionary (skipping sections outside a nonempty
`sections` filter), tagging each document with `sourceRepo` /
`sourceRepoName`, then resolve conflicts per section. -/
def mergeDocumentation (allDocs : List RepoDocs) (sections : List String) :
    List (String × List Document) :=
  let merged := allDocs.foldl (fun acc rd =>
    rd.docs.foldl (fun acc2 sd =>
      if sections.length > 0 && !(sections.contains sd.1) then acc2
      else
        upsertMany acc2 sd.1 (sd.2.map (tagDoc rd.repo rd.repoName))) acc) []
  merged.map (fun sd => (sd.1, resolveConflicts sd.2 sd.1))

/-! ## Linker: `linkCrossReferences`, `fixCrossRepoLinks` -/

/-- `Map.set`: replaces an existing binding in place or appends a new
one, so a later `set` of the same key wins. -/
def mapSet (m : List (String × String × Document)) (key : String) (v : String × Document) :
    List (String × String × Document) :=
  match m with
  | [] => [(key, v)]
  | (k, w) :: rest => if k = key then (k, v) :: rest else (k, w) :: mapSet rest key v

/-- `Map.get`. -/
def mapGet (m : List (String × String × Document)) (key : String) :
    Option (String × Document) :=
  (m.find? (fun e => e.1 == key)).map (fun e => e.2)

/-- The `docMap` of `linkCrossReferences`: every document is indexed
under both `section/filename` and bare `filename` (last write wins). -/
def buildDocMap (merged : List (String × List Document)) :
    List (String × String × Document) :=
  merged.foldl (fun m sd =>
    sd.2.foldl (fun m2 d =>
      mapSet (mapSet m2 (sd.1 ++ "/" ++ d.filename) (sd.1, d)) d.filename (sd.1, d)) m) []

/-- The matched text `[text](url)` that the replacement callback
returns unchanged. -/
def origLink (text url : List Char) : List Char :=
  '[' :: text ++ ']' :: '(' :: url ++ [')']

/-- `url.includes('#') ? url.split('#')[1] : ''` — the anchor the
callback attaches: the segment of `url` between the first and second
`#` (empty when there is no `#`). -/
def urlAnchor (url : List Char) : List Char :=
  if url.contains '#' then ((splitOnChar '#' url).drop 1).headD [] else []

/-- `basename(url.split('#')[0])` — the lookup key. -/
def urlFname (url : List Char) : String :=
  String.mk (basenameCl ((splitOnChar '#' url).headD []))

/-- The rewritten link `[text](../section/filename#anchor)` (anchor
part only when nonempty). -/
def rewrittenLink (text : List Char) (sectionName fn : String) (anchor : List Char) :
    List Char :=
  '[' :: text ++ ']' :: '(' ::
    ("../".data ++ sectionName.data ++ '/' :: fn.data
      ++ (if anchor.isEmpty then [] else '#' :: anchor) ++ [')'])

/-- The replacement callback of `fixCrossRepoLinks` for one matched
link: external URLs and pure anchors pass through; otherwise the
basename of the path part of `url` is looked up in `docMap` and the
link is rewritten when the resolved document's `sourceRepo` differs
from the current document's. -/
def fixOneLink (docMap : List (String × String × Document)) (currentDoc : Document)
    (text url : List Char) : List Char :=
  if List.isPrefixOf "http://".data url || List.isPrefixOf "https://".data url then
    origLink text url
  else if url.head? = some '#' then
    origLink text url
  else
    match mapGet docMap (urlFname url) with
    | some target =>
      if !(target.2.sourceRepo = currentDoc.sourceRepo) then
        rewrittenLink text target.1 target.2.filename (urlAnchor url)
      else origLink text url
    | none => origLink text url

/-- Leftmost match of the link pattern `\[([^\]]+)\]\(([^)]+)\)` at the
start of `cs`: returns the two captures and the number of characters
consumed. -/
def tryLink (cs : List Char) : Option (List Char × List Char × Nat) :=
  match cs with
  | '[' :: r1 =>
    let text := r1.takeWhile (fun c => !(c = ']'))
    match r1.drop text.length with
    | ']' :: '(' :: r2 =>
      let url := r2.takeWhile (fun c => !(c = ')'))
      match r2.drop url.length with
      | ')' :: _ =>
        if text.isEmpty || url.isEmpty then none
        else some (text, url, text.length + url.length + 4)
      | _ => none
    | _ => none
  | _ => none

/-- Recursion worker for the global link replace.  Every step consumes
at least one character of `cs` (a successful `tryLink` consumes at
least six), so a fuel of `cs.length` can never run out; the zero-fuel
branch is unreachable. -/
def replaceLinksAux (f : List Char → List Char → List Char) :
    Nat → List Char → List Char
  | 0, cs => cs
  | fuel + 1, cs =>
    match tryLink cs with
    | some (t, u, n) => f t u ++ replaceLinksAux f fuel (cs.drop n)
    | none =>
      match cs with
      | [] => []
      | c :: rest => c :: replaceLinksAux f fuel rest

/-- `content.replace(linkRegex, callback)` with the global flag:
scan left to right, replacing each match via `f` and resuming after
it. -/
def replaceLinks (f : List Char → List Char → List Char) (cs : List Char) : List Char :=
  replaceLinksAux f cs.length cs

/-- `fixCrossRepoLinks(content, currentDoc, docMap)`. -/
def fixCrossRepoLinks (content : String) (currentDoc : Document)
    (docMap : List (String × String × Document)) : String :=
  String.mk (replaceLinks (fixOneLink docMap currentDoc) content.data)

/-- `linkCrossReferences(merged)`: build the docMap once, then rewrite
every document's content.  (The JS version mutates contents in place;
the lookups it performs only read `sourceRepo`/`filename`/section,
which the mutation never touches, so the functional map is
equivalent.) -/
def linkCrossReferences (merged : List (String × List Document)) :
    List (String × List Document) :=
  let docMap := buildDocMap merged
  merged.map (fun sd =>
    (sd.1, sd.2.map (fun d => { d with content := fixCrossRepoLinks d.content d docMap })))

/-! ## Indexer: `generateIndex` -/

/-- Lexicographic comparison of strings by code point — the effect of
the JS default `Array.prototype.sort` comparator (UTF-16 code units)
and, to the extent needed here, of `localeCompare`, both of which
coincide with code-point order on the ASCII section names and filenames
the pipeline handles. -/
def clLe : List Char → List Char → Bool
  | [], _ => true
  | _ :: _, [] => false
  | a :: as, b :: bs =>
    if a.val < b.val then true
    else if b.val < a.val then false
    else clLe as bs

/-- Insertion step of a stable insertion sort by `clLe`. -/
def insertStr (key : α → String) (x : α) : List α → List α
  | [] => [x]
  | y :: ys =>
    if clLe (key x).data (key y).data then x :: y :: ys else y :: insertStr key x ys

/-- Sort with the JS default string comparator (used for
`Object.keys(merged).sort()` and, keyed by filename, for
`docs.sort((a, b) => a.filename.localeCompare(b.filename))`). -/
def sortByKey (key : α → String) (l : List α) : List α :=
  l.foldr (insertStr key) []

/-- `section.charAt(0).toUpperCase() + section.slice(1)`. -/
def capitalizeSection (s : String) : String :=
  match s.data with
  | [] => ""
  | c :: rest => String.mk (c.toUpper :: rest)

/-- The `byRepo` grouping of `generateIndex`: a document is listed once
under every entry of its `sourceRepos`, or under its `sourceRepo`
(JS `undefined` stringifies to the object key `"undefined"`). -/
def buildByRepo (documents : List Document) : List (String × List Document) :=
  documents.foldl (fun acc doc =>
    let repos :=
      match doc.sourceRepos with
      | some l => l
      | none => [doc.sourceRepo.getD "undefined"]
    repos.foldl (fun acc2 r => upsertMany acc2 r [doc]) acc) []

/-- The index lines for one document entry: title (falling back to the
filename with a first `.md` removed), link, optional status, optional
conflict-resolution tag.  The JS truthiness tests make an empty string
behave like an absent field. -/
def docLines (sectionName : String) (doc : Document) : List String :=
  let title :=
    if doc.metadata.title = "" then String.mk (replaceFirstOcc ".md".data [] doc.filename.data)
    else doc.metadata.title
  let link := sectionName ++ "/" ++ doc.filename
  ["- [" ++ title ++ "](" ++ link ++ ")"]
  ++ (match doc.metadata.status with
      | some s => if s = "" then [] else ["  - Status: " ++ s]
      | none => [])
  ++ (match doc.conflictResolution with
      | some s => if s = "" then [] else ["  - *(" ++ s ++ ")*"]
      | none => [])

/-- The index lines for one repository group within a section. -/
def repoGroupLines (sectionName : String) (rg : String × List Document) : List String :=
  let repoName := lastSeg rg.1
  ["**" ++ repoName ++ "**:", ""]
  ++ ((sortByKey (fun d => d.filename) rg.2).map (docLines sectionName)).flatten
  ++ [""]

/-- The index lines for one section: capitalized heading, then the
repository groups. -/
def sectionBlock (merged : List (String × List Document)) (sectionName : String) :
    List String :=
  let documents := lookupD merged sectionName
  ["### " ++ capitalizeSection sectionName, ""]
  ++ ((buildByRepo documents).map (repoGroupLines sectionName)).flatten

/-- The full line list of `generateIndex(merged, { repos, sections })`.
`dateStr` stands for `new Date().toISOString().split('T')[0]`, the one
clock-dependent input. -/
def generateIndexLines (merged : List (String × List Document)) (repos : List String)
    (dateStr : String) : List String :=
  ["# Aggregated Documentation Index", "",
   "> Auto-generated by DocFlow Aggregator", "",
   "**Last Updated**: " ++ dateStr, "",
   "## Summary", "",
   "- **Repositories**: " ++ toString repos.length,
   "- **Sections**: " ++ toString merged.length,
   "- **Documents**: " ++ toString (merged.foldl (fun s sd => s + sd.2.length) 0), ""]
  ++ (["## Source Repositories", ""] ++ repos.map (fun r => "- " ++ r) ++ [""])
  ++ (["## Documentation Sections", ""]
      ++ ((sortByKey id (merged.map (fun sd => sd.1))).map (sectionBlock merged)).flatten)
  ++ ["## Legend", "",
      "- **prefixed**: Document filename prefixed with repo name to avoid conflicts",
      "- **merged**: Content from multiple repos merged into single document", ""]

/-- `generateIndex`, returning the joined markdown text. -/
def generateIndex (merged : List (String × List Document)) (repos : List String)
    (dateStr : String) : String :=
  joinLines (generateIndexLines merged repos dateStr)

/-! ## Extractor: `extractDocs`, `extractSection`, and the aggregate
command's extraction loop -/

/-- A static snapshot of the filesystem: existing directories and the
markdown files with their contents.  It never changes during a run, so
the only extraction failure the model can exhibit is the missing
repository root — matching `extractDocs`, whose only `throw` is that
check. -/
structure FS where
  dirs : List String
  files : List (String × String)
deriving Repr

/-- The candidate-path table of `extractSection`. -/
def sectionPaths (sectionName : String) : List String :=
  if sectionName = "adr" then ["docs/architecture/adr", "docs/adr", "adr", ".design/adr"]
  else if sectionName = "api" then ["docs/api", "api", "docs/endpoints"]
  else if sectionName = "runbooks" then ["docs/runbooks", "runbooks", "docs/operations"]
  else if sectionName = "features" then ["docs/features", "features", "docs/requirements"]
  else if sectionName = "architecture" then
    ["docs/architecture", "architecture", "docs/design", ".design"]
  else if sectionName = "database" then ["docs/database", "database", "docs/schema"]
  else if sectionName = "security" then ["docs/security", "security"]
  else if sectionName = "deployment" then ["docs/deployment", "deployment", "docs/deploy"]
  else ["docs/" ++ sectionName, sectionName]

/-- Is `seg` a non-final path segment of `path`?  Models the
`**/node_modules/**`-style glob excludes. -/
def hasDirSegment (seg : String) (path : String) : Bool :=
  ((splitOnChar '/' path.data).dropLast).contains seg.data

/-- The `glob(join(fullPath, '**/*.md'), { ignore: [...] })` call:
markdown files under `root`, minus build/dependency directories, in
filesystem-snapshot order. -/
def globMd (fs : FS) (root : String) : List (String × String) :=
  fs.files.filter (fun f =>
    List.isPrefixOf (root ++ "/").data f.1.data
    && List.isSuffixOf ".md".data f.1.data
    && !(hasDirSegment "node_modules" f.1 || hasDirSegment "dist" f.1
         || hasDirSegment "build" f.1))

/-- `extractSection(repoDir, section)`: every candidate path that
exists contributes its markdown files as `Document`s. -/
def extractSection (fs : FS) (repoDir : String) (sectionName : String) : List Document :=
  ((sectionPaths sectionName).map (fun pathPattern =>
    let fullPath := repoDir ++ "/" ++ pathPattern
    if !(fs.dirs.contains fullPath) then []
    else
      (globMd fs fullPath).map (fun f =>
        let filename := String.mk (basenameCl f.1.data)
        { filename := filename,
          relativePath := some (String.mk (f.1.data.drop (fullPath ++ "/").data.length)),
          absolutePath := some f.1,
          content := f.2,
          sectionName := sectionName,
          sourceRepo := none,
          sourceRepoName := none,
          metadata := extractMetadata f.2 filename,
          conflictResolution := none,
          sourceRepos := none }))).flatten

/-- The default section list of `extractDocs`. -/
def defaultSections : List String := ["adr", "api", "runbooks", "features", "architecture"]

/-- The success path of `extractDocs(repoDir, options)`: collect the
nonempty sections.  (`osections` below is `options.sections`, `none`
when absent; an explicitly passed empty array is truthy in JS and is
kept as-is, so the default applies only when the option is absent.) -/
def extractDocsOk (fs : FS) (repoDir : String) (sections : List String) :
    List (String × List Document) :=
  sections.foldl (fun acc sectionName =>
    let sectionDocs := extractSection fs repoDir sectionName
    if sectionDocs.length > 0 then acc ++ [(sectionName, sectionDocs)] else acc) []

/-- `extractDocs(repoDir, options)` (see `extractDocsOk` for the
success path). -/
def extractDocs (fs : FS) (repoDir : String) (osections : Option (List String)) :
    Except String (List (String × List Document)) :=
  if !(fs.dirs.contains repoDir) then
    .error ("Repository directory not found: " ++ repoDir)
  else
    .ok (extractDocsOk fs repoDir (osections.getD defaultSections))

/-- The per-repository extraction loop of the aggregate command
(`src/cli/commands/aggregate.js`, the `for (const repo of repos)` loop):
each repository resolves to `{repoBase}/{repoName}`, a failed extraction
produces a warning and the loop continues. -/
def aggregateExtract (fs : FS) (repoBase : String) (sections : List String)
    (repos : List String) : List RepoDocs × List String :=
  repos.foldl (fun acc repo =>
    let repoName := lastSeg repo
    let repoPath := repoBase ++ "/" ++ repoName
    match extractDocs fs repoPath (some sections) with
    | .ok docs => (acc.1 ++ [⟨repo, repoName, docs⟩], acc.2)
    | .error e =>
      (acc.1, acc.2 ++ ["Warning: Failed to extract from " ++ repo ++ ": " ++ e]))
    ([], [])

/-- The merge–link–index pipeline on already-extracted documents, the
function claimed to be deterministic. -/
def runPipeline (allDocs : List RepoDocs) (sections : List String) (repos : List String)
    (dateStr : String) : String :=
  generateIndex (linkCrossReferences (mergeDocumentation allDocs sections)) repos dateStr

/-! ## Concrete fixtures used by counterexamples and witnesses -/

/-- A minimal extracted document fixture. -/
def fixDoc (fn content sectionName : String) : Document :=
  { filename := fn, relativePath := some fn, absolutePath := some fn,
    content := content, sectionName := sectionName, sourceRepo := none,
    sourceRepoName := none, metadata := extractMetadata content fn,
    conflictResolution := none, sourceRepos := none }

/-- Repo `a/svc` contributing `adr/ADR-001-x.md`. -/
def fixRepoA_adr : RepoDocs :=
  ⟨"a/svc", "svc", [("adr", [fixDoc "ADR-001-x.md" "# A\nbody a" "adr"])]⟩

/-- Repo `b/svc` contributing `adr/ADR-001-x.md`. -/
def fixRepoB_adr : RepoDocs :=
  ⟨"b/svc", "svc", [("adr", [fixDoc "ADR-001-x.md" "# B\nbody b" "adr"])]⟩

/-- Repo `a/svc` contributing `api/overview.md`. -/
def fixRepoA_api : RepoDocs :=
  ⟨"a/svc", "svc", [("api", [fixDoc "overview.md" "# Overview A\nBody A" "api"])]⟩

/-- Repo `b/svc` contributing `api/overview.md`. -/
def fixRepoB_api : RepoDocs :=
  ⟨"b/svc", "svc", [("api", [fixDoc "overview.md" "# Overview B\nBody B" "api"])]⟩

/-- The lines of a string (splitting on newlines). -/
def linesOf (s : String) : List (List Char) :=
  splitOnChar '\n' s.data

/-! ## Claim C1 -/

/-- Claim C1, counterexample.  Repos `a/svc` and `b/svc` both
contribute `adr/ADR-001-x.md`; the claim says the merged `adr` section
contains `a-svc-ADR-001-x.md` and `b-svc-ADR-001-x.md` with distinct
filenames, but the code prefixes with the sanitized `repoName` (the
last path segment, `svc` for both), producing `svc-ADR-001-x.md`
twice — the claimed filenames are absent and the produced filenames are
not distinct. -/
theorem c1_counterexample :
    (lookupD (mergeDocumentation [fixRepoA_adr, fixRepoB_adr] []) "adr").map
        (fun d => d.filename) = ["svc-ADR-001-x.md", "svc-ADR-001-x.md"]
    ∧ ¬ ((lookupD (mergeDocumentation [fixRepoA_adr, fixRepoB_adr] []) "adr").map
        (fun d => d.filename)).contains "a-svc-ADR-001-x.md"
    ∧ ¬ ((lookupD (mergeDocumentation [fixRepoA_adr, fixRepoB_adr] []) "adr").map
        (fun d => d.filename)).Nodup := by
  refine ⟨by decide, by decide, by decide⟩

/-! ## Claim C5 -/

/-- Claim C5, counterexample.  The claim states the merge–link–index
pipeline is a deterministic function of the extracted documents alone;
but `generateIndex` embeds the current date (`new Date()`), so two runs
of the pipeline on the same (here: empty) input differ when the run
dates differ. -/
theorem c5_counterexample :
    runPipeline [] [] [] "2026-10-11" ≠ runPipeline [] [] [] "2026-10-12" := by
  decide

/-- Claim C5, amended: the pipeline output is a deterministic function
of the extracted documents **and the run date**; runs on different
dates differ only in the `Last Updated` line (line index 4 of the
index), every other line being independent of the date. -/
theorem c5_amended (merged : List (String × List Document)) (repos : List String)
    (d1 d2 : String) :
    (generateIndexLines merged repos d1).take 4 = (generateIndexLines merged repos d2).take 4
    ∧ (generateIndexLines merged repos d1).drop 5 = (generateIndexLines merged repos d2).drop 5
    ∧ (generateIndexLines merged repos d1)[4]? = some ("**Last Updated**: " ++ d1) := by
  refine ⟨rfl, rfl, rfl⟩

/-! ## Claim C2, counterexample -/

/-- Claim C2, counterexample.  Repos `a/svc` and `b/svc` both
contribute `api/overview.md`; the claim says the merged body's
subheadings read `## From a/svc` then `## From b/svc`, but the code
writes `## From {repoName}` with the last path segment, so the body
contains `## From svc` twice and `## From a/svc` nowhere. -/
theorem c2_counterexample :
    ((lookupD (mergeDocumentation [fixRepoA_api, fixRepoB_api] []) "api").map
      (fun d => containsSub "## From a/svc".data d.content.data)) = [false]
    ∧ ((lookupD (mergeDocumentation [fixRepoA_api, fixRepoB_api] []) "api").map
      (fun d => (linesOf d.content).filter
        (fun l => List.isPrefixOf "## From ".data l)))
      = [["## From svc".data, "## From svc".data]] := by
  refine ⟨by decide, by decide⟩

/-! ## Claim C3, counterexample -/

/-- A runbook document whose link target carries a two-part anchor. -/
def fixRb3 : RepoDocs :=
  ⟨"a/svc", "svc", [("runbooks", [fixDoc "RB-001.md" "x [A](doc2.md#a#b) y" "runbooks"])]⟩

/-- The api-side target document for the C3 counterexample. -/
def fixApi3 : RepoDocs :=
  ⟨"b/svc", "svc", [("api", [fixDoc "doc2.md" "z" "api"])]⟩

/-- Claim C3, counterexample.  The claim says a rewritten link keeps
the original `#anchor` suffix; for the cross-repository link
`[A](doc2.md#a#b)` the code keeps only `url.split('#')[1]` — the
segment between the first and second `#` — producing
`[A](../api/doc2.md#a)` rather than `[A](../api/doc2.md#a#b)`. -/
theorem c3_counterexample :
    (lookupD (linkCrossReferences (mergeDocumentation [fixRb3, fixApi3] [])) "runbooks").map
        (fun d => d.content) = ["x [A](../api/doc2.md#a) y"]
    ∧ ("x [A](../api/doc2.md#a) y" : String) ≠ "x [A](../api/doc2.md#a#b) y" := by
  refine ⟨by decide, by decide⟩

/-! ## Claim C4, counterexample -/

/-- Claim C4, counterexample.  Filename uniqueness within a merged
section fails: the prefixed strategy uses the sanitized short repo
name, so `a/svc` and `b/svc` colliding on `adr/ADR-001-x.md` yields
`svc-ADR-001-x.md` twice in the `adr` section. -/
theorem c4_counterexample :
    ¬ ((lookupD (mergeDocumentation [fixRepoA_adr, fixRepoB_adr] []) "adr").map
        (fun d => d.filename)).Nodup
    ∧ (lookupD (mergeDocumentation [fixRepoA_adr, fixRepoB_adr] []) "adr").length = 2 := by
  refine ⟨by decide, by decide⟩

/-! ## Claim C6, counterexample -/

/-- The heading texts emitted by the index: the text after `### ` on
every line that carries a section subheading. -/
def headingTexts (lines : List String) : List (List Char) :=
  lines.filterMap (fun l =>
    if List.isPrefixOf "### ".data l.data then some (l.data.drop 4) else none)

/-- Claim C6, counterexample.  The claim says the section subheadings
equal the MergedCollection's keys (in sorted order); but the code
capitalizes the first character, emitting `### Adr` for the key `adr`,
so the subheading set differs from the key set. -/
theorem c6_counterexample :
    headingTexts (generateIndexLines
        [("adr", [fixDoc "ADR-001-x.md" "# A\nbody a" "adr"])] [] "2026-10-11")
      = ["Adr".data]
    ∧ sortByKey id ([("adr", [fixDoc "ADR-001-x.md" "# A\nbody a" "adr"])].map
        (fun sd => sd.1)) = ["adr"]
    ∧ ("Adr".data : List Char) ≠ "adr".data := by
  refine ⟨by decide, by decide, by decide⟩

/-! ## Claim C7, counterexample -/

/-- Claim C7, counterexample.  The claim says a field absent from the
frontmatter is left at its default; but the field patterns are
unanchored substring matches, so a frontmatter containing only
`update: 2024-07-07` (no `date:` field) still sets
`metadata.date = "2024-07-07"`, because `update:` contains the
substring `date:`. -/
theorem c7_counterexample :
    (extractMetadata "---\nupdate: 2024-07-07\n---\nbody" "f.md").date
      = some "2024-07-07" := by
  decide

/-! ## Claim C9, counterexample -/

/-- Claim C9, counterexample.  The claim says the extracted title
falls back to the filename when no level-1 heading exists; but
`extractMetadata` never reads its `filename` parameter — the title
stays the empty string (the filename fallback happens only later, in
the renderers, and strips `.md`). -/
theorem c9_counterexample :
    (extractMetadata "no heading here" "foo.md").title = ""
    ∧ ("" : String) ≠ "foo.md" := by
  refine ⟨by decide, by decide⟩

/-! ## General lemmas about the embedding primitives -/

theorem strData_append (a b : String) : (a ++ b).data = a.data ++ b.data := by
  cases a
  cases b
  rfl

theorem isPrefixOf_self_append (l x : List Char) : List.isPrefixOf l (l ++ x) = true := by
  induction l with
  | nil => simp [List.isPrefixOf]
  | cons c cs ih => simp [List.isPrefixOf, ih]

theorem filterMap_flatten (f : α → Option β) (L : List (List α)) :
    (L.flatten).filterMap f = (L.map (fun l => l.filterMap f)).flatten := by
  induction L with
  | nil => rfl
  | cons l L ih => simp [List.filterMap_append, ih]

theorem flatten_map_singleton (f : α → β) (l : List α) :
    (l.map (fun x => [f x])).flatten = l.map f := by
  induction l with
  | nil => rfl
  | cons x xs ih => simp [ih]

/-! ## Claim C7 -/

/-- A frontmatter field as the spec describes it (via the embedded
unanchored pattern), for comparison with what extraction stores. -/
def fmFieldOf (kw : List Char) (content : String) : Option String :=
  match frontmatter content.data with
  | some fm => (fieldMatch kw fm).map (fun v => String.mk (trimChars v))
  | none => none

/-- The frontmatter tag list as the spec describes it. -/
def fmTagsOf (content : String) : List String :=
  match frontmatter content.data with
  | some fm =>
    match tagsMatch fm with
    | some v =>
      (splitOnChar ',' v).map
        (fun t => String.mk ((trimChars t).filter (fun c => !(c = '\x27' || c = '"'))))
    | none => []
  | none => []

/-- The `status` stored by extraction, decomposed: ADR match first,
frontmatter match otherwise. -/
theorem extractMetadata_status_eq (content filename : String) :
    (extractMetadata content filename).status =
      (match adrMatch "status".data content.data with
       | some v => some (String.mk (trimChars v))
       | none => fmFieldOf "status:".data content) := by
  simp only [extractMetadata, fmFieldOf, emptyMetadata]
  repeat' split
  all_goals simp_all

/-- The `date` stored by extraction, decomposed. -/
theorem extractMetadata_date_eq (content filename : String) :
    (extractMetadata content filename).date =
      (match adrMatch "date".data content.data with
       | some v => some (String.mk (trimChars v))
       | none => fmFieldOf "date:".data content) := by
  simp only [extractMetadata, fmFieldOf, emptyMetadata]
  repeat' split
  all_goals simp_all

/-- The `author` stored by extraction comes from the frontmatter
only. -/
theorem extractMetadata_author_eq (content filename : String) :
    (extractMetadata content filename).author = fmFieldOf "author:".data content := by
  simp only [extractMetadata, fmFieldOf, emptyMetadata]
  repeat' split
  all_goals simp_all

/-- The `tags` stored by extraction come from the frontmatter only. -/
theorem extractMetadata_tags_eq (content filename : String) :
    (extractMetadata content filename).tags = fmTagsOf content := by
  simp only [extractMetadata, fmTagsOf, emptyMetadata]
  repeat' split
  all_goals simp_all

/-- The `title` stored by extraction is the trimmed capture of the
first-heading pattern, or the empty string; no later update touches
it. -/
theorem extractMetadata_title_eq (content filename : String) :
    (extractMetadata content filename).title =
      (match matchTitle content.data with
       | some t => String.mk (trimChars t)
       | none => "") := by
  simp only [extractMetadata, emptyMetadata]
  repeat' split
  all_goals simp_all

/-- Claim C7, amended.  ADR-style `## Status` / `## Date` matches
always override the frontmatter values of `status`/`date`; in their
absence the frontmatter values (when matched) survive; `author` and
`tags` always come from the frontmatter; unmatched fields keep their
defaults and extraction is total.  (The amendment: "present" means the
embedded unanchored, case-insensitive patterns match — e.g. a
frontmatter `update:` line also supplies `date:` — rather than a field
being declared.) -/
theorem c7_amended (content filename : String) :
    (∀ v, adrMatch "status".data content.data = some v →
        (extractMetadata content filename).status = some (String.mk (trimChars v)))
    ∧ (∀ v, adrMatch "date".data content.data = some v →
        (extractMetadata content filename).date = some (String.mk (trimChars v)))
    ∧ (adrMatch "status".data content.data = none →
        (extractMetadata content filename).status = fmFieldOf "status:".data content)
    ∧ (adrMatch "date".data content.data = none →
        (extractMetadata content filename).date = fmFieldOf "date:".data content)
    ∧ (extractMetadata content filename).author = fmFieldOf "author:".data content
    ∧ (extractMetadata content filename).tags = fmTagsOf content := by
  refine ⟨?_, ?_, ?_, ?_, ?_, ?_⟩
  · intro v hv
    rw [extractMetadata_status_eq, hv]
  · intro v hv
    rw [extractMetadata_date_eq, hv]
  · intro h
    rw [extractMetadata_status_eq, h]
  · intro h
    rw [extractMetadata_date_eq, h]
  · exact extractMetadata_author_eq content filename
  · exact extractMetadata_tags_eq content filename

/-- Claim C7, witness: on a document with frontmatter `status: draft`,
`date: 2024-01-02` and ADR-style `## Status` / `## Date` blocks, the
ADR values win, while `author` survives from the frontmatter. -/
theorem c7_amended_witness :
    (extractMetadata "---\ndate: 2024-01-02\nauthor: Ann\nstatus: draft\n---\n# T\n## Status\nAccepted\n## Date\n2025-09-09\n" "f.md").status
        = some "Accepted"
    ∧ (extractMetadata "---\ndate: 2024-01-02\nauthor: Ann\nstatus: draft\n---\n# T\n## Status\nAccepted\n## Date\n2025-09-09\n" "f.md").date
        = some "2025-09-09"
    ∧ (extractMetadata "---\ndate: 2024-01-02\nauthor: Ann\nstatus: draft\n---\n# T\n## Status\nAccepted\n## Date\n2025-09-09\n" "f.md").author
        = some "Ann" := by
  have h := c7_amended "---\ndate: 2024-01-02\nauthor: Ann\nstatus: draft\n---\n# T\n## Status\nAccepted\n## Date\n2025-09-09\n" "f.md"
  refine ⟨?_, ?_, ?_⟩
  · have hs := h.1 "Accepted".data (by decide)
    rw [hs]
    decide
  · have hd := h.2.1 "2025-09-09".data (by decide)
    rw [hd]
    decide
  · have ha := h.2.2.2.2.1
    rw [ha]
    decide

/-! ## Claim C3, amended -/

/-- Claim C3, amended.  Per matched inline link `[text](url)`:
external (`http://`/`https://`) and anchor-only targets pass through
unchanged character-for-character, as do targets whose basename does
not resolve or resolves to a document with the same `sourceRepo`; a
cross-repository resolution is rewritten to
`../{section}/{filename}` carrying the segment of the original anchor
up to a second `#` (rather than the whole original anchor suffix), and
only when that segment is nonempty.  The stage is total — it never
fails. -/
theorem c3_amended (docMap : List (String × String × Document)) (currentDoc : Document)
    (text url : List Char) :
    (List.isPrefixOf "http://".data url = true ∨ List.isPrefixOf "https://".data url = true →
      fixOneLink docMap currentDoc text url = origLink text url)
    ∧ (url.head? = some '#' → fixOneLink docMap currentDoc text url = origLink text url)
    ∧ (List.isPrefixOf "http://".data url = false →
       List.isPrefixOf "https://".data url = false →
       ¬ url.head? = some '#' →
       mapGet docMap (urlFname url) = none →
       fixOneLink docMap currentDoc text url = origLink text url)
    ∧ (∀ target, List.isPrefixOf "http://".data url = false →
       List.isPrefixOf "https://".data url = false →
       ¬ url.head? = some '#' →
       mapGet docMap (urlFname url) = some target →
       target.2.sourceRepo = currentDoc.sourceRepo →
       fixOneLink docMap currentDoc text url = origLink text url)
    ∧ (∀ target, List.isPrefixOf "http://".data url = false →
       List.isPrefixOf "https://".data url = false →
       ¬ url.head? = some '#' →
       mapGet docMap (urlFname url) = some target →
       ¬ target.2.sourceRepo = currentDoc.sourceRepo →
       fixOneLink docMap currentDoc text url
         = rewrittenLink text target.1 target.2.filename (urlAnchor url)) := by
  refine ⟨?_, ?_, ?_, ?_, ?_⟩
  · intro h
    rcases h with h | h <;> simp [fixOneLink, h]
  · intro h
    by_cases h1 : List.isPrefixOf "http://".data url = true
    · simp [fixOneLink, h1]
    · by_cases h2 : List.isPrefixOf "https://".data url = true
      · simp [fixOneLink, h2]
      · simp only [Bool.not_eq_true] at h1 h2
        simp [fixOneLink, h1, h2, h]
  · intro h1 h2 h3 h4
    simp [fixOneLink, h1, h2, h3, h4]
  · intro target h1 h2 h3 h4 h5
    simp [fixOneLink, h1, h2, h3, h4, h5]
  · intro target h1 h2 h3 h4 h5
    simp [fixOneLink, h1, h2, h3, h4, h5]

/-- Claim C3, witness: the concrete behaviors of the callback on an
external link, an anchor link, an unresolvable link, a same-repo link
and a cross-repo link with anchor. -/
theorem c3_amended_witness :
    fixOneLink [("doc2.md", ("api", fixDoc "doc2.md" "z" "api"))]
        { fixDoc "RB-001.md" "x" "runbooks" with sourceRepo := some "a/svc" }
        "A".data "https://x.y/z.md".data = origLink "A".data "https://x.y/z.md".data
    ∧ fixOneLink [("doc2.md", ("api", fixDoc "doc2.md" "z" "api"))]
        { fixDoc "RB-001.md" "x" "runbooks" with sourceRepo := some "a/svc" }
        "A".data "#here".data = origLink "A".data "#here".data
    ∧ fixOneLink [("doc2.md", ("api", fixDoc "doc2.md" "z" "api"))]
        { fixDoc "RB-001.md" "x" "runbooks" with sourceRepo := some "a/svc" }
        "A".data "missing.md".data = origLink "A".data "missing.md".data
    ∧ fixOneLink [("doc2.md", ("api", { fixDoc "doc2.md" "z" "api" with sourceRepo := some "b/svc" }))]
        { fixDoc "RB-001.md" "x" "runbooks" with sourceRepo := some "a/svc" }
        "A".data "sub/doc2.md#a".data
        = rewrittenLink "A".data "api" "doc2.md" "a".data := by
  have ext := (c3_amended [("doc2.md", ("api", fixDoc "doc2.md" "z" "api"))]
    { fixDoc "RB-001.md" "x" "runbooks" with sourceRepo := some "a/svc" }
    "A".data "https://x.y/z.md".data).1 (Or.inr (by decide))
  have anc := (c3_amended [("doc2.md", ("api", fixDoc "doc2.md" "z" "api"))]
    { fixDoc "RB-001.md" "x" "runbooks" with sourceRepo := some "a/svc" }
    "A".data "#here".data).2.1 (by decide)
  have mis := (c3_amended [("doc2.md", ("api", fixDoc "doc2.md" "z" "api"))]
    { fixDoc "RB-001.md" "x" "runbooks" with sourceRepo := some "a/svc" }
    "A".data "missing.md".data).2.2.1 (by decide) (by decide) (by decide) (by decide)
  have crx := (c3_amended [("doc2.md", ("api", { fixDoc "doc2.md" "z" "api" with sourceRepo := some "b/svc" }))]
    { fixDoc "RB-001.md" "x" "runbooks" with sourceRepo := some "a/svc" }
    "A".data "sub/doc2.md#a".data).2.2.2.2
    ("api", { fixDoc "doc2.md" "z" "api" with sourceRepo := some "b/svc" })
    (by decide) (by decide) (by decide) (by decide) (by decide)
  refine ⟨ext, anc, mis, ?_⟩
  rw [crx]
  decide

/-! ## Claim C8 -/

theorem containsStr_iff (l : List String) (a : String) : l.contains a = true ↔ a ∈ l := by
  induction l with
  | nil => simp
  | cons x xs ih => simp [List.contains_cons, ih]

theorem containsStr_false_not_mem (l : List String) (a : String)
    (h : l.contains a = false) : a ∉ l := by
  intro hm
  rw [(containsStr_iff l a).mpr hm] at h
  cases h

theorem c8_extract_loop_aux (fs : FS) (repoBase : String) (sections : List String) :
    ∀ (repos : List String) (a1 : List RepoDocs) (a2 : List String),
      repos.foldl (fun acc repo =>
        let repoName := lastSeg repo
        let repoPath := repoBase ++ "/" ++ repoName
        match extractDocs fs repoPath (some sections) with
        | .ok docs => (acc.1 ++ [⟨repo, repoName, docs⟩], acc.2)
        | .error e =>
          (acc.1, acc.2 ++ ["Warning: Failed to extract from " ++ repo ++ ": " ++ e]))
        (a1, a2)
      = (a1 ++ ((repos.filter
            (fun r => fs.dirs.contains (repoBase ++ "/" ++ lastSeg r))).map
              (fun r => ⟨r, lastSeg r,
                extractDocsOk fs (repoBase ++ "/" ++ lastSeg r) sections⟩)),
         a2 ++ ((repos.filter
            (fun r => !(fs.dirs.contains (repoBase ++ "/" ++ lastSeg r)))).map
              (fun r => "Warning: Failed to extract from " ++ r ++ ": "
                ++ ("Repository directory not found: "
                     ++ (repoBase ++ "/" ++ lastSeg r))))) := by
  intro repos
  induction repos with
  | nil => intro a1 a2; simp
  | cons r rest ih =>
    intro a1 a2
    by_cases hc : fs.dirs.contains (repoBase ++ "/" ++ lastSeg r) = true
    · have hstep : extractDocs fs (repoBase ++ "/" ++ lastSeg r) (some sections)
          = .ok (extractDocsOk fs (repoBase ++ "/" ++ lastSeg r) sections) := by
        simp [extractDocs, hc, (containsStr_iff _ _).mp hc]
      have hc' : repoBase ++ "/" ++ lastSeg r ∈ fs.dirs := (containsStr_iff _ _).mp hc
      simp only [List.foldl_cons, hstep]
      rw [ih]
      simp [List.filter_cons, hc, hc']
    · simp only [Bool.not_eq_true] at hc
      have hstep : extractDocs fs (repoBase ++ "/" ++ lastSeg r) (some sections)
          = .error ("Repository directory not found: " ++ (repoBase ++ "/" ++ lastSeg r)) := by
        simp [extractDocs, hc, containsStr_false_not_mem _ _ hc]
      have hc' : ¬ (repoBase ++ "/" ++ lastSeg r ∈ fs.dirs) :=
        containsStr_false_not_mem _ _ hc
      simp only [List.foldl_cons, hstep]
      rw [ih]
      simp [List.filter_cons, hc, hc']

/-- Claim C8, confirmed.  `extractDocs` fails — with the
repository-not-found condition — exactly when the repository root does
not exist in the (static) filesystem; the aggregate command's loop
turns each such failure into a warning and keeps the results of every
repository whose root exists, so one failure never aborts the batch:
the successful extractions are exactly the existing repositories (in
order), the warnings exactly the missing ones, and every repository is
accounted for. -/
theorem c8_confirmed (fs : FS) :
    (∀ (repoDir : String) (osections : Option (List String)),
      (fs.dirs.contains repoDir = false →
        extractDocs fs repoDir osections
          = .error ("Repository directory not found: " ++ repoDir))
      ∧ (fs.dirs.contains repoDir = true →
        extractDocs fs repoDir osections
          = .ok (extractDocsOk fs repoDir (osections.getD defaultSections))))
    ∧ (∀ (repoBase : String) (sections : List String) (repos : List String),
      (aggregateExtract fs repoBase sections repos).1
        = ((repos.filter (fun r => fs.dirs.contains (repoBase ++ "/" ++ lastSeg r))).map
            (fun r => ⟨r, lastSeg r, extractDocsOk fs (repoBase ++ "/" ++ lastSeg r) sections⟩))
      ∧ (aggregateExtract fs repoBase sections repos).2
        = ((repos.filter (fun r => !(fs.dirs.contains (repoBase ++ "/" ++ lastSeg r)))).map
            (fun r => "Warning: Failed to extract from " ++ r ++ ": "
              ++ ("Repository directory not found: " ++ (repoBase ++ "/" ++ lastSeg r))))
      ∧ (aggregateExtract fs repoBase sections repos).1.length
          + (aggregateExtract fs repoBase sections repos).2.length = repos.length) := by
  constructor
  · intro repoDir osections
    constructor
    · intro h
      simp [extractDocs, h, containsStr_false_not_mem _ _ h]
    · intro h
      simp [extractDocs, h, (containsStr_iff _ _).mp h]
  · intro repoBase sections repos
    have h := c8_extract_loop_aux fs repoBase sections repos [] []
    unfold aggregateExtract
    rw [h]
    refine ⟨by simp, by simp, ?_⟩
    simp only [List.nil_append, List.length_map]
    have hsplit : ∀ (l : List String) (p : String → Bool),
        (l.filter p).length + (l.filter (fun r => !(p r))).length = l.length := by
      intro l p
      induction l with
      | nil => rfl
      | cons x xs ih =>
        by_cases hx : p x = true <;> simp [List.filter_cons, hx] <;> omega
    exact hsplit repos _

/-- A small filesystem fixture: repository `svc` exists (with an api
doc), repository `gone` does not. -/
def fixFS : FS :=
  ⟨["/w/repos/svc", "/w/repos/svc/docs/api"],
   [("/w/repos/svc/docs/api/overview.md", "# O\nbody")]⟩

/-- Claim C8, witness: extraction of the missing repository fails with
the repository-not-found condition, the existing one succeeds, and the
loop keeps the good repository while warning about the bad one. -/
theorem c8_confirmed_witness :
    extractDocs fixFS "/w/repos/missing" none
      = .error ("Repository directory not found: " ++ "/w/repos/missing")
    ∧ (aggregateExtract fixFS "/w/repos" ["api"] ["a/svc", "b/gone"]).1.map
        (fun rd => rd.repo) = ["a/svc"]
    ∧ (aggregateExtract fixFS "/w/repos" ["api"] ["a/svc", "b/gone"]).2.length = 1 := by
  have h := c8_confirmed fixFS
  have e1 := (h.1 "/w/repos/missing" none).1 (by decide)
  have hl := h.2 "/w/repos" ["api"] ["a/svc", "b/gone"]
  refine ⟨e1, ?_, ?_⟩
  · rw [hl.1]
    decide
  · rw [hl.2.1]
    decide

/-! ## Shared lemmas about the insertion-ordered dictionaries -/

theorem upsertMany_keyed {α : Type} (P : String → α → Prop) :
    ∀ (acc : List (String × List α)) (key : String) (vs : List α),
      (∀ sd ∈ acc, ∀ x ∈ sd.2, P sd.1 x) → (∀ x ∈ vs, P key x) →
      ∀ sd ∈ upsertMany acc key vs, ∀ x ∈ sd.2, P sd.1 x := by
  intro acc
  induction acc with
  | nil =>
    intro key vs hacc hvs sd hsd x hx
    simp only [upsertMany, List.mem_singleton] at hsd
    subst hsd
    exact hvs x hx
  | cons hd tl ih =>
    intro key vs hacc hvs sd hsd x hx
    obtain ⟨k, l⟩ := hd
    by_cases hk : k = key
    · subst hk
      simp only [upsertMany, if_true] at hsd
      rcases List.mem_cons.mp hsd with hsd | hsd
      · subst hsd
        rcases List.mem_append.mp hx with h | h
        · exact hacc (k, l) (List.mem_cons_self _ _) x h
        · exact hvs x h
      · exact hacc sd (List.mem_cons_of_mem _ hsd) x hx
    · simp only [upsertMany, hk, if_false] at hsd
      rcases List.mem_cons.mp hsd with hsd | hsd
      · subst hsd
        exact hacc (k, l) (List.mem_cons_self _ _) x hx
      · exact ih key vs (fun sd' h' => hacc sd' (List.mem_cons_of_mem _ h')) hvs sd hsd x hx

theorem upsertMany_keys {α : Type} :
    ∀ (acc : List (String × List α)) (key : String) (vs : List α),
      (upsertMany acc key vs).map Prod.fst =
        if (acc.map Prod.fst).contains key then acc.map Prod.fst
        else acc.map Prod.fst ++ [key] := by
  intro acc
  induction acc with
  | nil => intro key vs; simp [upsertMany]
  | cons hd tl ih =>
    intro key vs
    obtain ⟨k, l⟩ := hd
    by_cases hk : k = key
    · simp [upsertMany, hk, List.contains_cons]
    · have hk' : ¬ (key = k) := fun h => hk h.symm
      simp only [upsertMany, hk, if_false, List.map_cons, List.contains_cons]
      rw [ih key vs]
      have hbeq : (key == k) = false := by simp [hk']
      by_cases hc : (tl.map Prod.fst).contains key = true
      · rw [if_pos hc, if_pos (by rw [hbeq, hc]; rfl)]
      · simp only [Bool.not_eq_true] at hc
        rw [if_neg (by rw [hc]; simp), if_neg (by rw [hbeq, hc]; simp), List.cons_append]

theorem upsertMany_entries {α : Type} (R : List α → Prop) :
    ∀ (acc : List (String × List α)) (key : String) (vs : List α),
      (∀ sd ∈ acc, R sd.2) → R vs → (∀ l, R l → R (l ++ vs)) →
      ∀ sd ∈ upsertMany acc key vs, R sd.2 := by
  intro acc
  induction acc with
  | nil =>
    intro key vs hacc hvs hgrow sd hsd
    simp only [upsertMany, List.mem_singleton] at hsd
    subst hsd
    exact hvs
  | cons hd tl ih =>
    intro key vs hacc hvs hgrow sd hsd
    obtain ⟨k, l⟩ := hd
    by_cases hk : k = key
    · subst hk
      simp only [upsertMany, if_true] at hsd
      rcases List.mem_cons.mp hsd with hsd | hsd
      · subst hsd
        exact hgrow l (hacc (k, l) (List.mem_cons_self _ _))
      · exact hacc sd (List.mem_cons_of_mem _ hsd)
    · simp only [upsertMany, hk, if_false] at hsd
      rcases List.mem_cons.mp hsd with hsd | hsd
      · subst hsd
        exact hacc (k, l) (List.mem_cons_self _ _)
      · exact ih key vs (fun sd' h' => hacc sd' (List.mem_cons_of_mem _ h')) hvs hgrow sd hsd

/-! ## Shared lemmas about `groupByFilename` -/

theorem groupByFilename_aux_keyed (P : String → Document → Prop) :
    ∀ (docs : List Document) (acc : List (String × List Document)),
      (∀ sd ∈ acc, ∀ x ∈ sd.2, P sd.1 x) → (∀ d ∈ docs, P d.filename d) →
      ∀ fg ∈ docs.foldl (fun acc d => upsertMany acc d.filename [d]) acc,
        ∀ x ∈ fg.2, P fg.1 x := by
  intro docs
  induction docs with
  | nil => intro acc hacc hdocs fg hfg; exact hacc fg hfg
  | cons d rest ih =>
    intro acc hacc hdocs
    simp only [List.foldl_cons]
    refine ih (upsertMany acc d.filename [d]) ?_
      (fun d' h' => hdocs d' (List.mem_cons_of_mem _ h'))
    refine upsertMany_keyed P acc d.filename [d] hacc ?_
    intro y hy
    rw [List.mem_singleton] at hy
    subst hy
    exact hdocs y (List.mem_cons_self _ _)

/-- Every document of a filename group has that group's key as its
filename and comes from the grouped list. -/
theorem groupByFilename_spec (docs : List Document) :
    ∀ fg ∈ groupByFilename docs, ∀ x ∈ fg.2, x.filename = fg.1 ∧ x ∈ docs := by
  intro fg hfg x hx
  have := groupByFilename_aux_keyed (fun k d => d.filename = k ∧ d ∈ docs) docs []
    (by intro sd h; cases h) (by intro d hd; exact ⟨rfl, hd⟩) fg hfg x hx
  exact this

theorem groupByFilename_keys_nodup_aux :
    ∀ (docs : List Document) (acc : List (String × List Document)),
      (acc.map Prod.fst).Nodup →
      ((docs.foldl (fun acc d => upsertMany acc d.filename [d]) acc).map Prod.fst).Nodup := by
  intro docs
  induction docs with
  | nil => intro acc h; exact h
  | cons d rest ih =>
    intro acc hacc
    simp only [List.foldl_cons]
    refine ih (upsertMany acc d.filename [d]) ?_
    rw [upsertMany_keys]
    by_cases hc : (acc.map Prod.fst).contains d.filename = true
    · rw [if_pos hc]
      exact hacc
    · simp only [Bool.not_eq_true] at hc
      simp only [hc, Bool.false_eq_true, if_false]
      have hnm : d.filename ∉ acc.map Prod.fst := containsStr_false_not_mem _ _ hc
      simp [List.nodup_append, hacc, hnm]

/-- The filename groups carry pairwise-distinct keys. -/
theorem groupByFilename_keys_nodup (docs : List Document) :
    ((groupByFilename docs).map Prod.fst).Nodup :=
  groupByFilename_keys_nodup_aux docs [] (by simp)

/-- Filename groups are nonempty. -/
theorem groupByFilename_nonempty_aux :
    ∀ (docs : List Document) (acc : List (String × List Document)),
      (∀ sd ∈ acc, sd.2 ≠ []) →
      ∀ fg ∈ docs.foldl (fun acc d => upsertMany acc d.filename [d]) acc, fg.2 ≠ [] := by
  intro docs
  induction docs with
  | nil => intro acc h fg hfg; exact h fg hfg
  | cons d rest ih =>
    intro acc hacc
    simp only [List.foldl_cons]
    refine ih (upsertMany acc d.filename [d]) ?_
    exact upsertMany_entries (fun l => l ≠ []) acc d.filename [d] hacc (by simp)
      (by intro l hl; simp)

theorem groupByFilename_nonempty (docs : List Document) :
    ∀ fg ∈ groupByFilename docs, fg.2 ≠ [] :=
  groupByFilename_nonempty_aux docs [] (by intro sd h; cases h)

/-! ## Shared lemmas about the pre-conflict merge fold -/

/-- Every document accumulated by `mergeDocumentation`'s grouping fold
satisfies any property enjoyed by all tagged input documents. -/
theorem mergeFold_docs_prop (Q : Document → Prop) (sections : List String) :
    ∀ (allDocs : List RepoDocs) (acc : List (String × List Document)),
      (∀ sd ∈ acc, ∀ d ∈ sd.2, Q d) →
      (∀ rd ∈ allDocs, ∀ sd ∈ rd.docs, ∀ d ∈ sd.2, Q (tagDoc rd.repo rd.repoName d)) →
      ∀ sd ∈ allDocs.foldl (fun acc rd =>
          rd.docs.foldl (fun acc2 sd =>
            if sections.length > 0 && !(sections.contains sd.1) then acc2
            else upsertMany acc2 sd.1 (sd.2.map (tagDoc rd.repo rd.repoName))) acc) acc,
        ∀ d ∈ sd.2, Q d := by
  have inner : ∀ (repo repoName : String) (docsList : List (String × List Document))
      (acc : List (String × List Document)),
      (∀ sd ∈ acc, ∀ d ∈ sd.2, Q d) →
      (∀ sd ∈ docsList, ∀ d ∈ sd.2, Q (tagDoc repo repoName d)) →
      ∀ sd ∈ docsList.foldl (fun acc2 sd =>
          if sections.length > 0 && !(sections.contains sd.1) then acc2
          else upsertMany acc2 sd.1 (sd.2.map (tagDoc repo repoName))) acc,
        ∀ d ∈ sd.2, Q d := by
    intro repo repoName docsList
    induction docsList with
    | nil => intro acc hacc hin sd hsd; exact hacc sd hsd
    | cons sd0 rest ih =>
      intro acc hacc hin
      simp only [List.foldl_cons]
      by_cases hskip : (sections.length > 0 && !(sections.contains sd0.1)) = true
      · rw [if_pos hskip]
        exact ih acc hacc (fun sd' h' => hin sd' (List.mem_cons_of_mem _ h'))
      · rw [if_neg hskip]
        refine ih _ ?_ (fun sd' h' => hin sd' (List.mem_cons_of_mem _ h'))
        refine upsertMany_keyed (fun _ d => Q d) acc sd0.1 _ hacc ?_
        intro x hx
        obtain ⟨d0, hd0, rfl⟩ := List.mem_map.mp hx
        exact hin sd0 (List.mem_cons_self _ _) d0 hd0
  intro allDocs
  induction allDocs with
  | nil => intro acc hacc hin sd hsd; exact hacc sd hsd
  | cons rd rest ih =>
    intro acc hacc hin
    simp only [List.foldl_cons]
    refine ih _ ?_ (fun rd' h' => hin rd' (List.mem_cons_of_mem _ h'))
    exact inner rd.repo rd.repoName rd.docs acc hacc
      (fun sd' h' => hin rd (List.mem_cons_self _ _) sd' h')

/-! ## Claim C10 -/

/-- Claim C10, confirmed.  A document produced by the merged strategy
carries no `sourceRepo` (provided, as extraction guarantees, the input
documents carry no preset `conflictResolution`); and in link rewriting,
a resolvable non-external link between a document without `sourceRepo`
and one with (in either direction) is classified cross-repository and
rewritten. -/
theorem c10_confirmed :
    (∀ (allDocs : List RepoDocs) (sections : List String),
      (∀ rd ∈ allDocs, ∀ sd ∈ rd.docs, ∀ d ∈ sd.2, d.conflictResolution = none) →
      ∀ sd ∈ mergeDocumentation allDocs sections, ∀ d ∈ sd.2,
        d.conflictResolution = some "merged" → d.sourceRepo = none)
    ∧ (∀ (docMap : List (String × String × Document)) (currentDoc : Document)
        (text url : List Char) (target : String × Document),
        List.isPrefixOf "http://".data url = false →
        List.isPrefixOf "https://".data url = false →
        ¬ url.head? = some '#' →
        mapGet docMap (urlFname url) = some target →
        (currentDoc.sourceRepo = none ∧ ¬ target.2.sourceRepo = none
          ∨ ¬ currentDoc.sourceRepo = none ∧ target.2.sourceRepo = none) →
        fixOneLink docMap currentDoc text url
          = rewrittenLink text target.1 target.2.filename (urlAnchor url)) := by
  constructor
  · intro allDocs sections hin sd hsd d hd hcr
    simp only [mergeDocumentation] at hsd
    obtain ⟨sd0, hsd0, rfl⟩ := List.mem_map.mp hsd
    have hnone : ∀ x ∈ sd0.2, x.conflictResolution = none := by
      intro x hx
      exact mergeFold_docs_prop (fun d => d.conflictResolution = none) sections allDocs []
        (by intro sd h; cases h)
        (by
          intro rd hrd sd' hsd' d' hd'
          simpa [tagDoc] using hin rd hrd sd' hsd' d' hd')
        sd0 hsd0 x hx
    simp only [resolveConflicts] at hd
    obtain ⟨l', hl', hdl⟩ := List.mem_flatten.mp hd
    obtain ⟨fg, hfg, rfl⟩ := List.mem_map.mp hl'
    by_cases h1 : fg.2.length = 1
    · simp only [h1, if_true] at hdl
      have := (groupByFilename_spec sd0.2 fg hfg d hdl).2
      rw [hnone d this] at hcr
      cases hcr
    · simp only [h1, if_false] at hdl
      by_cases h2 : (sd0.1 = "adr" || sd0.1 = "runbooks") = true
      · simp only [h2, if_true] at hdl
        obtain ⟨d0, hd0, rfl⟩ := List.mem_map.mp hdl
        simp at hcr
      · simp only [Bool.not_eq_true] at h2
        simp only [h2, Bool.false_eq_true, if_false, List.mem_singleton] at hdl
        subst hdl
        rfl
  · intro docMap currentDoc text url target h1 h2 h3 h4 h5
    have hne : ¬ target.2.sourceRepo = currentDoc.sourceRepo := by
      rcases h5 with ⟨ha, hb⟩ | ⟨ha, hb⟩
      · rw [ha]; exact hb
      · rw [hb]; intro h; exact ha h.symm
    simp [fixOneLink, h1, h2, h3, h4, hne]

/-- Claim C10, witness: in the merged fixture the api document has no
`sourceRepo`, and a link from the runbook (with `sourceRepo`) to it is
rewritten. -/
theorem c10_confirmed_witness :
    ((lookupD (mergeDocumentation [fixRepoA_api, fixRepoB_api] []) "api").map
      (fun d => (d.conflictResolution, d.sourceRepo))) = [(some "merged", none)]
    ∧ fixOneLink [("overview.md", ("api", { fixDoc "overview.md" "z" "api" with sourceRepo := none }))]
        { fixDoc "RB-001.md" "x" "runbooks" with sourceRepo := some "a/svc" }
        "A".data "overview.md".data
        = rewrittenLink "A".data "api" "overview.md" [] := by
  constructor
  · have h := c10_confirmed.1 [fixRepoA_api, fixRepoB_api] [] (by decide)
    have hm : ∀ sd ∈ mergeDocumentation [fixRepoA_api, fixRepoB_api] [], ∀ d ∈ sd.2,
        d.conflictResolution = some "merged" → d.sourceRepo = none := h
    decide
  · exact c10_confirmed.2
      [("overview.md", ("api", { fixDoc "overview.md" "z" "api" with sourceRepo := none }))]
      { fixDoc "RB-001.md" "x" "runbooks" with sourceRepo := some "a/svc" }
      "A".data "overview.md".data
      ("api", { fixDoc "overview.md" "z" "api" with sourceRepo := none })
      (by decide) (by decide) (by decide) (by decide)
      (by
        right
        constructor
        · decide
        · decide)

/-! ## Claim C4, amended -/

/-- In a section resolved by the merged strategy, the output filenames
are exactly the filename-group keys. -/
theorem resolveConflicts_filenames_merged (docs : List Document) (sec : String)
    (h1 : ¬ sec = "adr") (h2 : ¬ sec = "runbooks") :
    (resolveConflicts docs sec).map (fun d => d.filename)
      = (groupByFilename docs).map Prod.fst := by
  have hsec : (sec = "adr" || sec = "runbooks") = false := by
    simp [h1, h2]
  have aux : ∀ (gs : List (String × List Document)),
      (∀ fg ∈ gs, fg.2 ≠ []) → (∀ fg ∈ gs, ∀ x ∈ fg.2, x.filename = fg.1) →
      ((gs.map (fun fg =>
        if fg.2.length = 1 then fg.2
        else if sec = "adr" || sec = "runbooks" then
          fg.2.map (fun d =>
            let repoPref := sanitizeRepoName (d.sourceRepoName.getD "")
            { d with filename := repoPref ++ "-" ++ d.filename,
                     conflictResolution := some "prefixed" })
        else
          [{ filename := fg.1,
             relativePath := none,
             absolutePath := none,
             content := mergeDocumentContent fg.2 fg.1,
             sectionName := sec,
             sourceRepo := none,
             sourceRepoName := none,
             metadata := ((fg.2.head?).map (fun d => d.metadata)).getD emptyMetadata,
             conflictResolution := some "merged",
             sourceRepos := some (fg.2.map (fun d => d.sourceRepo.getD "")) }])).flatten).map
        (fun d => d.filename) = gs.map Prod.fst := by
    intro gs
    induction gs with
    | nil => intro _ _; rfl
    | cons fg rest ih =>
      intro hne hfn
      simp only [List.map_cons, List.flatten_cons, List.map_append]
      rw [ih (fun fg' h' => hne fg' (List.mem_cons_of_mem _ h'))
          (fun fg' h' => hfn fg' (List.mem_cons_of_mem _ h'))]
      by_cases hlen : fg.2.length = 1
      · rw [if_pos hlen]
        obtain ⟨x, hx⟩ := List.length_eq_one.mp hlen
        rw [hx]
        have := hfn fg (List.mem_cons_self _ _) x (by rw [hx]; exact List.mem_cons_self _ _)
        simp [this]
      · rw [if_neg hlen, if_neg (by rw [hsec]; simp)]
        rfl
  unfold resolveConflicts
  exact aux (groupByFilename docs) (groupByFilename_nonempty docs)
    (fun fg hfg x hx => (groupByFilename_spec docs fg hfg x hx).1)

/-- Claim C4, amended.  In every section of the merged collection that
is resolved by the merged strategy (any section other than `adr` and
`runbooks`), the filenames of the resulting documents are pairwise
distinct.  (The original claim fails for prefixed sections — see the
counterexample.) -/
theorem c4_amended (allDocs : List RepoDocs) (sections : List String) (sec : String)
    (l : List Document) (hmem : (sec, l) ∈ mergeDocumentation allDocs sections)
    (h1 : ¬ sec = "adr") (h2 : ¬ sec = "runbooks") :
    (l.map (fun d => d.filename)).Nodup := by
  simp only [mergeDocumentation] at hmem
  obtain ⟨sd0, hsd0, heq⟩ := List.mem_map.mp hmem
  have hsec : sd0.1 = sec := congrArg Prod.fst heq
  have hl : l = resolveConflicts sd0.2 sd0.1 := (congrArg Prod.snd heq).symm
  rw [hl, hsec, resolveConflicts_filenames_merged sd0.2 sec h1 h2]
  exact groupByFilename_keys_nodup sd0.2

/-- Claim C4, witness: the merged `api` section of the fixture has
distinct filenames. -/
theorem c4_amended_witness :
    ("api", lookupD (mergeDocumentation [fixRepoA_api, fixRepoB_api] []) "api")
        ∈ mergeDocumentation [fixRepoA_api, fixRepoB_api] []
    ∧ ((lookupD (mergeDocumentation [fixRepoA_api, fixRepoB_api] []) "api").map
        (fun d => d.filename)).Nodup :=
  ⟨by decide,
   c4_amended [fixRepoA_api, fixRepoB_api] [] "api" _ (by decide) (by decide) (by decide)⟩

/-! ## Claim C1, amended -/

theorem mergeFold_uniform (sec : String) :
    ∀ (contribs : List (String × String × Document)) (l : List Document),
      (contribs.map (fun c => (⟨c.1, c.2.1, [(sec, [c.2.2])]⟩ : RepoDocs))).foldl
        (fun acc rd =>
          rd.docs.foldl (fun acc2 sd =>
            if ([] : List String).length > 0 && !(([] : List String).contains sd.1) then acc2
            else upsertMany acc2 sd.1 (sd.2.map (tagDoc rd.repo rd.repoName))) acc)
        [(sec, l)]
      = [(sec, l ++ contribs.map (fun c => tagDoc c.1 c.2.1 c.2.2))] := by
  intro contribs
  induction contribs with
  | nil => intro l; simp
  | cons c cs ih =>
    intro l
    simp only [List.map_cons, List.foldl_cons, List.foldl_nil, List.map_nil]
    rw [if_neg (by simp)]
    rw [show upsertMany [(sec, l)] sec [tagDoc c.1 c.2.1 c.2.2]
          = [(sec, l ++ [tagDoc c.1 c.2.1 c.2.2])] from by simp [upsertMany]]
    rw [ih]
    simp

theorem mergeDocumentation_uniform (sec : String)
    (contribs : List (String × String × Document)) (hne : contribs ≠ []) :
    mergeDocumentation (contribs.map (fun c => ⟨c.1, c.2.1, [(sec, [c.2.2])]⟩)) []
      = [(sec, resolveConflicts (contribs.map (fun c => tagDoc c.1 c.2.1 c.2.2)) sec)] := by
  obtain ⟨c, cs, rfl⟩ := List.exists_cons_of_ne_nil hne
  unfold mergeDocumentation
  simp only [List.map_cons, List.foldl_cons, List.foldl_nil, List.map_nil]
  rw [if_neg (by simp)]
  rw [show upsertMany ([] : List (String × List Document)) sec [tagDoc c.1 c.2.1 c.2.2]
        = [(sec, [tagDoc c.1 c.2.1 c.2.2])] from rfl]
  rw [mergeFold_uniform sec cs [tagDoc c.1 c.2.1 c.2.2]]
  simp

theorem groupByFilename_uniform_aux (F : String) :
    ∀ (docs : List Document) (l : List Document),
      (∀ d ∈ docs, d.filename = F) →
      docs.foldl (fun acc d => upsertMany acc d.filename [d]) [(F, l)]
        = [(F, l ++ docs)] := by
  intro docs
  induction docs with
  | nil => intro l _; simp
  | cons d ds ih =>
    intro l hfn
    simp only [List.foldl_cons]
    have hd : d.filename = F := hfn d (List.mem_cons_self _ _)
    have hstep : upsertMany [(F, l)] d.filename [d] = [(F, l ++ [d])] := by
      rw [hd]
      simp [upsertMany]
    rw [hstep, ih (l ++ [d]) (fun d' h' => hfn d' (List.mem_cons_of_mem _ h'))]
    simp

theorem groupByFilename_uniform (F : String) (docs : List Document)
    (hne : docs ≠ []) (hfn : ∀ d ∈ docs, d.filename = F) :
    groupByFilename docs = [(F, docs)] := by
  obtain ⟨d, ds, rfl⟩ := List.exists_cons_of_ne_nil hne
  unfold groupByFilename
  simp only [List.foldl_cons]
  have hd : d.filename = F := hfn d (List.mem_cons_self _ _)
  have hstep : upsertMany [] d.filename [d] = [(F, [d])] := by
    rw [hd]
    rfl
  rw [hstep, groupByFilename_uniform_aux F ds [d] (fun d' h' => hfn d' (List.mem_cons_of_mem _ h'))]
  simp

/-- Claim C1, amended.  For a section in `{adr, runbooks}` with N ≥ 2
repositories each contributing one document with filename F, the merged
section contains exactly the N documents, in contribution order, each
tagged `prefixed` and renamed to `{sanitized repoName}-F` — the prefix
is the sanitized *short* repo name, so the names are pairwise distinct
exactly when those sanitized short names are. -/
theorem c1_amended (sec F : String) (hsec : sec = "adr" ∨ sec = "runbooks")
    (contribs : List (String × String × Document))
    (hlen : 2 ≤ contribs.length)
    (hF : ∀ c ∈ contribs, c.2.2.filename = F) :
    lookupD (mergeDocumentation
        (contribs.map (fun c => ⟨c.1, c.2.1, [(sec, [c.2.2])]⟩)) []) sec
      = contribs.map (fun c =>
          { tagDoc c.1 c.2.1 c.2.2 with
            filename := sanitizeRepoName c.2.1 ++ "-" ++ F,
            conflictResolution := some "prefixed" })
    ∧ ((contribs.map (fun c => sanitizeRepoName c.2.1)).Nodup →
        ((lookupD (mergeDocumentation
            (contribs.map (fun c => ⟨c.1, c.2.1, [(sec, [c.2.2])]⟩)) []) sec).map
          (fun d => d.filename)).Nodup) := by
  have hne : contribs ≠ [] := by
    intro h
    rw [h] at hlen
    simp at hlen
  have htag : ∀ d ∈ contribs.map (fun c => tagDoc c.1 c.2.1 c.2.2), d.filename = F := by
    intro d hd
    obtain ⟨c, hc, rfl⟩ := List.mem_map.mp hd
    simpa [tagDoc] using hF c hc
  have htagne : contribs.map (fun c => tagDoc c.1 c.2.1 c.2.2) ≠ [] := by
    simpa using hne
  have hgrp := groupByFilename_uniform F _ htagne htag
  have hseccond : (sec = "adr" || sec = "runbooks") = true := by
    rcases hsec with h | h <;> simp [h]
  have hlen' : ¬ ((contribs.map (fun c => tagDoc c.1 c.2.1 c.2.2)).length = 1) := by
    simp only [List.length_map]
    omega
  have hres : resolveConflicts (contribs.map (fun c => tagDoc c.1 c.2.1 c.2.2)) sec
      = contribs.map (fun c =>
          { tagDoc c.1 c.2.1 c.2.2 with
            filename := sanitizeRepoName c.2.1 ++ "-" ++ F,
            conflictResolution := some "prefixed" }) := by
    unfold resolveConflicts
    rw [hgrp]
    simp only [List.map_cons, List.map_nil, List.flatten_cons, List.flatten_nil,
      List.append_nil]
    rw [if_neg hlen', if_pos hseccond, List.map_map]
    refine List.map_congr_left ?_
    intro c hc
    simp only [Function.comp]
    have : (tagDoc c.1 c.2.1 c.2.2).sourceRepoName = some c.2.1 := rfl
    simp [tagDoc, this, hF c hc]
  have hmain : lookupD (mergeDocumentation
      (contribs.map (fun c => ⟨c.1, c.2.1, [(sec, [c.2.2])]⟩)) []) sec
      = contribs.map (fun c =>
          { tagDoc c.1 c.2.1 c.2.2 with
            filename := sanitizeRepoName c.2.1 ++ "-" ++ F,
            conflictResolution := some "prefixed" }) := by
    rw [mergeDocumentation_uniform sec contribs hne, hres]
    simp [lookupD]
  refine ⟨hmain, ?_⟩
  intro hnd
  rw [hmain, List.map_map]
  have hcomp : ((fun d => d.filename) ∘ fun (c : String × String × Document) =>
      ({ tagDoc c.1 c.2.1 c.2.2 with
         filename := sanitizeRepoName c.2.1 ++ "-" ++ F,
         conflictResolution := some "prefixed" } : Document))
      = (fun s => s ++ "-" ++ F) ∘ (fun (c : String × String × Document) => sanitizeRepoName c.2.1) := by
    funext c
    rfl
  rw [hcomp, ← List.map_map]
  refine List.Nodup.map ?_ hnd
  intro a b hab
  have hdata := congrArg String.data hab
  rw [strData_append, strData_append, strData_append, strData_append] at hdata
  rw [List.append_assoc, List.append_assoc] at hdata
  have h' := List.append_cancel_right hdata
  cases a
  cases b
  exact congrArg String.mk h'

/-- Claim C1, witness: two repos with distinct short names `svc1`,
`svc2` colliding on `adr/ADR-001-x.md` give `svc1-ADR-001-x.md` and
`svc2-ADR-001-x.md`, prefixed and distinct. -/
theorem c1_amended_witness :
    lookupD (mergeDocumentation
        ([("a/svc1", "svc1", fixDoc "ADR-001-x.md" "# A\nbody a" "adr"),
          ("b/svc2", "svc2", fixDoc "ADR-001-x.md" "# B\nbody b" "adr")].map
          (fun c => ⟨c.1, c.2.1, [("adr", [c.2.2])]⟩)) []) "adr"
      = [("a/svc1", "svc1", fixDoc "ADR-001-x.md" "# A\nbody a" "adr"),
         ("b/svc2", "svc2", fixDoc "ADR-001-x.md" "# B\nbody b" "adr")].map
          (fun c =>
            { tagDoc c.1 c.2.1 c.2.2 with
              filename := sanitizeRepoName c.2.1 ++ "-" ++ "ADR-001-x.md",
              conflictResolution := some "prefixed" })
    ∧ ((lookupD (mergeDocumentation
        ([("a/svc1", "svc1", fixDoc "ADR-001-x.md" "# A\nbody a" "adr"),
          ("b/svc2", "svc2", fixDoc "ADR-001-x.md" "# B\nbody b" "adr")].map
          (fun c => ⟨c.1, c.2.1, [("adr", [c.2.2])]⟩)) []) "adr").map
        (fun d => d.filename)).Nodup := by
  have h := c1_amended "adr" "ADR-001-x.md" (Or.inl rfl)
    [("a/svc1", "svc1", fixDoc "ADR-001-x.md" "# A\nbody a" "adr"),
     ("b/svc2", "svc2", fixDoc "ADR-001-x.md" "# B\nbody b" "adr")]
    (by decide) (by decide)
  exact ⟨h.1, h.2 (by decide)⟩

/-! ## Line-splitting lemmas for the C2 analysis -/

theorem splitOnChar_ne_nil (c : Char) (cs : List Char) : splitOnChar c cs ≠ [] := by
  induction cs with
  | nil => simp [splitOnChar]
  | cons x rest ih =>
    by_cases hx : x = c
    · simp [splitOnChar, hx]
    · simp only [splitOnChar, hx, if_false]
      cases hs : splitOnChar c rest with
      | nil => simp
      | cons h t => simp

theorem splitOnChar_append_cons (c : Char) :
    ∀ (xs ys : List Char),
      splitOnChar c (xs ++ c :: ys) = splitOnChar c xs ++ splitOnChar c ys := by
  intro xs ys
  induction xs with
  | nil => simp [splitOnChar]
  | cons x rest ih =>
    by_cases hx : x = c
    · simp [splitOnChar, hx, ih]
    · simp only [List.cons_append, splitOnChar, hx, if_false, List.append_eq]
      rw [ih]
      cases hs : splitOnChar c rest with
      | nil => exact absurd hs (splitOnChar_ne_nil c rest)
      | cons h t => simp

theorem splitOnChar_of_not_contains (c : Char) (cs : List Char)
    (h : cs.contains c = false) : splitOnChar c cs = [cs] := by
  induction cs with
  | nil => rfl
  | cons x rest ih =>
    simp only [List.contains_cons, Bool.or_eq_false_iff] at h
    have hx : ¬ x = c := by
      intro hxc
      rw [hxc] at h
      simp at h
    simp only [splitOnChar, hx, if_false, ih h.2]

theorem filterBool_flatten (p : α → Bool) (L : List (List α)) :
    (L.flatten).filter p = (L.map (fun l => l.filter p)).flatten := by
  induction L with
  | nil => rfl
  | cons l rest ih => simp [List.filter_append, ih]

theorem joinLines_data_cons (a : String) (L : List String) (h : L ≠ []) :
    (joinLines (a :: L)).data = a.data ++ '\n' :: (joinLines L).data := by
  obtain ⟨b, rest, rfl⟩ := List.exists_cons_of_ne_nil h
  show (a ++ "\n" ++ joinLines (b :: rest)).data = _
  rw [strData_append, strData_append, List.append_assoc]
  rfl

theorem linesOf_joinLines :
    ∀ (L : List String), L ≠ [] →
      splitOnChar '\n' (joinLines L).data
        = (L.map (fun s => splitOnChar '\n' s.data)).flatten := by
  intro L
  induction L with
  | nil => intro h; cases h rfl
  | cons a rest ih =>
    intro _
    cases hr : rest with
    | nil => simp [joinLines]
    | cons b rs =>
      rw [← hr]
      have hrne : rest ≠ [] := by rw [hr]; simp
      rw [joinLines_data_cons a rest hrne, splitOnChar_append_cons, ih hrne]
      simp

/-- The chars of a replacement with an empty replacement string are a
subset of the original. -/
theorem mem_replaceFirstOcc_nil (pat : List Char) :
    ∀ (cs : List Char) (x : Char), x ∈ replaceFirstOcc pat [] cs → x ∈ cs := by
  intro cs
  induction cs with
  | nil =>
    intro x hx
    unfold replaceFirstOcc at hx
    split at hx <;> simp at hx
  | cons c rest ih =>
    intro x hx
    unfold replaceFirstOcc at hx
    split at hx
    · simp only [List.nil_append] at hx
      exact List.mem_of_mem_drop hx
    · rcases List.mem_cons.mp hx with h | h
      · rw [h]; exact List.mem_cons_self _ _
      · exact List.mem_cons_of_mem _ (ih x h)

theorem containsChar_iff (l : List Char) (a : Char) : l.contains a = true ↔ a ∈ l := by
  induction l with
  | nil => simp
  | cons x xs ih => simp [List.contains_cons, ih]

theorem not_contains_replaceFirstOcc_nil (pat cs : List Char) (a : Char)
    (h : cs.contains a = false) : (replaceFirstOcc pat [] cs).contains a = false := by
  by_cases hc : (replaceFirstOcc pat [] cs).contains a = true
  · have := mem_replaceFirstOcc_nil pat cs a ((containsChar_iff _ _).mp hc)
    rw [(containsChar_iff _ _).mpr this] at h
    cases h
  · simpa using hc

/-! ## Claim C2, amended -/

/-- Is this line a `## From ` subheading? -/
def isFromLine (l : List Char) : Bool :=
  List.isPrefixOf "## From ".data l

theorem containsB_append (l1 l2 : List Char) (a : Char) :
    (l1 ++ l2).contains a = (l1.contains a || l2.contains a) := by
  induction l1 with
  | nil => simp
  | cons x xs ih => simp [List.contains_cons, ih, Bool.or_assoc]

theorem filterBool_eq_nil {α : Type} (p : α → Bool) (l : List α)
    (h : ∀ a ∈ l, p a = false) : l.filter p = [] := by
  simp only [List.filter_eq_nil_iff]
  intro a ha
  simp [h a ha]

/-- The filtered `## From` lines contributed by one merge block. -/
theorem mergeBlock_filter (d : Document)
    (hc : ∀ l ∈ splitOnChar '\n' (stripLeadingH1 d.content.data), isFromLine l = false)
    (hrn : (d.sourceRepoName.getD "").data.contains '\n' = false) :
    (((["## From " ++ d.sourceRepoName.getD "", "",
        String.mk (stripLeadingH1 d.content.data), ""]).map
      (fun s => splitOnChar '\n' s.data)).flatten).filter isFromLine
    = ["## From ".data ++ (d.sourceRepoName.getD "").data] := by
  have hdata : ("## From " ++ d.sourceRepoName.getD "").data
      = "## From ".data ++ (d.sourceRepoName.getD "").data := strData_append _ _
  have hnc : ("## From " ++ d.sourceRepoName.getD "").data.contains '\n' = false := by
    rw [hdata, containsB_append]
    rw [hrn]
    decide
  have hline1 : splitOnChar '\n' ("## From " ++ d.sourceRepoName.getD "").data
      = [("## From " ++ d.sourceRepoName.getD "").data] :=
    splitOnChar_of_not_contains _ _ hnc
  simp only [List.map_cons, List.map_nil, List.flatten_cons, List.flatten_nil,
    List.filter_append, List.append_nil]
  rw [hline1]
  rw [filterBool_eq_nil isFromLine _ hc]
  rw [show splitOnChar '\n' (("" : String).data) = [[]] from rfl]
  rw [show List.filter isFromLine [([] : List Char)] = [] from by decide]
  rw [show List.filter isFromLine [("## From " ++ d.sourceRepoName.getD "").data]
      = [("## From " ++ d.sourceRepoName.getD "").data] from by
    rw [hdata]
    simp [List.filter, isFromLine, isPrefixOf_self_append]]
  rw [hdata]
  simp

/-- The `## From` lines of the merged body's block section, in
contribution order. -/
theorem mergeBlocks_filter :
    ∀ (docs : List Document),
      (∀ d ∈ docs, ∀ l ∈ splitOnChar '\n' (stripLeadingH1 d.content.data),
        isFromLine l = false) →
      (∀ d ∈ docs, (d.sourceRepoName.getD "").data.contains '\n' = false) →
      (((mergeBlocks docs).map (fun s => splitOnChar '\n' s.data)).flatten).filter isFromLine
        = docs.map (fun d => "## From ".data ++ (d.sourceRepoName.getD "").data) := by
  intro docs
  induction docs with
  | nil => intro _ _; rfl
  | cons d rest ih =>
    intro hc hrn
    cases rest with
    | nil =>
      have := mergeBlock_filter d (hc d (List.mem_cons_self _ _))
        (hrn d (List.mem_cons_self _ _))
      simpa [mergeBlocks] using this
    | cons d2 rs =>
      have hblock : mergeBlocks (d :: d2 :: rs)
          = (["## From " ++ d.sourceRepoName.getD "", "",
              String.mk (stripLeadingH1 d.content.data), ""] ++ ["---", ""])
            ++ mergeBlocks (d2 :: rs) := rfl
      rw [hblock]
      simp only [List.map_append, List.flatten_append, List.filter_append]
      rw [ih (fun d' h' => hc d' (List.mem_cons_of_mem _ h'))
          (fun d' h' => hrn d' (List.mem_cons_of_mem _ h'))]
      rw [mergeBlock_filter d (hc d (List.mem_cons_self _ _)) (hrn d (List.mem_cons_self _ _))]
      rw [show List.filter isFromLine
            (List.map (fun s => splitOnChar '\n' s.data) [("---" : String), ""]).flatten
          = [] from by decide]
      simp

/-- Claim C2, amended.  For a section outside `{adr, runbooks}` with
N ≥ 2 repositories each contributing one document with filename F, the
merged section contains exactly one document: filename F,
`conflictResolution = "merged"`, `sourceRepos` in contribution order,
metadata from the first-seen document, and — provided no contributing
body itself contains `## From ` lines and names are newline-free —
exactly N `## From {repoName}` subheadings in contribution order,
where `repoName` is the *short* repo name (`svc`, not `a/svc`). -/
theorem c2_amended (sec F : String) (h1 : ¬ sec = "adr") (h2 : ¬ sec = "runbooks")
    (contribs : List (String × String × Document))
    (hlen : 2 ≤ contribs.length)
    (hF : ∀ c ∈ contribs, c.2.2.filename = F)
    (hclean : ∀ c ∈ contribs, ∀ l ∈ splitOnChar '\n' (stripLeadingH1 c.2.2.content.data),
      isFromLine l = false)
    (hrn : ∀ c ∈ contribs, c.2.1.data.contains '\n' = false)
    (htitle : ((contribs.head?.map (fun c => c.2.2.metadata.title)).getD "").data.contains '\n'
      = false)
    (hFnl : F.data.contains '\n' = false) :
    ∃ d : Document,
      lookupD (mergeDocumentation
          (contribs.map (fun c => ⟨c.1, c.2.1, [(sec, [c.2.2])]⟩)) []) sec = [d]
      ∧ d.filename = F
      ∧ d.conflictResolution = some "merged"
      ∧ d.sourceRepos = some (contribs.map (fun c => c.1))
      ∧ d.metadata = (contribs.head?.map (fun c => c.2.2.metadata)).getD emptyMetadata
      ∧ (linesOf d.content).filter isFromLine
          = contribs.map (fun c => "## From ".data ++ c.2.1.data) := by
  have hne : contribs ≠ [] := by
    intro h
    rw [h] at hlen
    simp at hlen
  have htag : ∀ d ∈ contribs.map (fun c => tagDoc c.1 c.2.1 c.2.2), d.filename = F := by
    intro d hd
    obtain ⟨c, hc, rfl⟩ := List.mem_map.mp hd
    simpa [tagDoc] using hF c hc
  have htagne : contribs.map (fun c => tagDoc c.1 c.2.1 c.2.2) ≠ [] := by
    simpa using hne
  have hgrp := groupByFilename_uniform F _ htagne htag
  have hseccond : ¬ ((sec = "adr" || sec = "runbooks") = true) := by
    simp [h1, h2]
  have hlen' : ¬ ((contribs.map (fun c => tagDoc c.1 c.2.1 c.2.2)).length = 1) := by
    simp only [List.length_map]
    omega
  have hres : resolveConflicts (contribs.map (fun c => tagDoc c.1 c.2.1 c.2.2)) sec
      = [{ filename := F,
           relativePath := none,
           absolutePath := none,
           content := mergeDocumentContent (contribs.map (fun c => tagDoc c.1 c.2.1 c.2.2)) F,
           sectionName := sec,
           sourceRepo := none,
           sourceRepoName := none,
           metadata := (((contribs.map (fun c => tagDoc c.1 c.2.1 c.2.2)).head?).map
             (fun d => d.metadata)).getD emptyMetadata,
           conflictResolution := some "merged",
           sourceRepos := some ((contribs.map (fun c => tagDoc c.1 c.2.1 c.2.2)).map
             (fun d => d.sourceRepo.getD "")) }] := by
    unfold resolveConflicts
    rw [hgrp]
    simp only [List.map_cons, List.map_nil, List.flatten_cons, List.flatten_nil,
      List.append_nil]
    rw [if_neg hlen', if_neg hseccond]
  refine ⟨{ filename := F,
            relativePath := none,
            absolutePath := none,
            content := mergeDocumentContent (contribs.map (fun c => tagDoc c.1 c.2.1 c.2.2)) F,
            sectionName := sec,
            sourceRepo := none,
            sourceRepoName := none,
            metadata := (((contribs.map (fun c => tagDoc c.1 c.2.1 c.2.2)).head?).map
              (fun d => d.metadata)).getD emptyMetadata,
            conflictResolution := some "merged",
            sourceRepos := some ((contribs.map (fun c => tagDoc c.1 c.2.1 c.2.2)).map
              (fun d => d.sourceRepo.getD "")) }, ?_, ?_, ?_, ?_, ?_, ?_⟩
  · rw [mergeDocumentation_uniform sec contribs hne, hres]
    simp [lookupD]
  · rfl
  · rfl
  · show some ((contribs.map (fun c => tagDoc c.1 c.2.1 c.2.2)).map
      (fun d => d.sourceRepo.getD "")) = some (contribs.map (fun c => c.1))
    rw [List.map_map]
    exact congrArg some (List.map_congr_left (fun c hc => rfl))
  · show (((contribs.map (fun c => tagDoc c.1 c.2.1 c.2.2)).head?).map
      (fun d => d.metadata)).getD emptyMetadata = _
    rw [List.head?_map, Option.map_map]
    rfl
  · show (linesOf (mergeDocumentContent (contribs.map (fun c => tagDoc c.1 c.2.1 c.2.2)) F)).filter
      isFromLine = _
    unfold mergeDocumentContent
    rw [List.head?_map, Option.map_map]
    have htitle' : ((contribs.head?.map
        ((fun d => d.metadata.title) ∘ fun c => tagDoc c.1 c.2.1 c.2.2)).getD "")
        = (contribs.head?.map (fun c => c.2.2.metadata.title)).getD "" := rfl
    rw [htitle']
    set t0 := (contribs.head?.map (fun c => c.2.2.metadata.title)).getD "" with ht0
    have hheadnl : (if t0 = "" then String.mk (replaceFirstOcc ".md".data [] F.data)
        else t0).data.contains '\n' = false := by
      by_cases h : t0 = ""
      · rw [if_pos h]
        exact not_contains_replaceFirstOcc_nil ".md".data F.data '\n' hFnl
      · rw [if_neg h]
        exact htitle
    show (linesOf (joinLines _)).filter isFromLine = _
    unfold linesOf
    rw [linesOf_joinLines _ (by simp)]
    simp only [List.map_cons, List.map_append, List.flatten_cons, List.flatten_append,
      List.filter_append]
    rw [mergeBlocks_filter _
      (by
        intro d hd l hl
        obtain ⟨c, hc, rfl⟩ := List.mem_map.mp hd
        exact hclean c hc l hl)
      (by
        intro d hd
        obtain ⟨c, hc, rfl⟩ := List.mem_map.mp hd
        exact hrn c hc)]
    have hheadline : splitOnChar '\n'
        ("# " ++ (if t0 = "" then String.mk (replaceFirstOcc ".md".data [] F.data) else t0)).data
        = [("# " ++ (if t0 = "" then String.mk (replaceFirstOcc ".md".data [] F.data) else t0)).data] := by
      apply splitOnChar_of_not_contains
      rw [strData_append, containsB_append, hheadnl]
      decide
    rw [hheadline]
    rw [show List.filter isFromLine
        [("# " ++ (if t0 = "" then String.mk (replaceFirstOcc ".md".data [] F.data) else t0)).data]
        = [] from by
      rw [strData_append]
      rw [show ("# " : String).data = ['#', ' '] from rfl]
      simp [List.filter, isFromLine, List.isPrefixOf]]
    rw [show splitOnChar '\n' (("" : String).data) = [[]] from rfl]
    rw [show List.filter isFromLine [([] : List Char)] = [] from by decide]
    rw [show List.filter isFromLine (splitOnChar '\n'
        ("> **Note**: This document has been aggregated from multiple repositories." : String).data)
        = [] from by decide]
    rw [List.map_map]
    simp only [List.nil_append]
    exact List.map_congr_left (fun c hc => rfl)

/-- Claim C2, witness: two repos with short names `svc1`, `svc2`
colliding on `api/overview.md` merge into one document whose `## From`
subheadings are `## From svc1` then `## From svc2`. -/
theorem c2_amended_witness :
    ∃ d : Document,
      lookupD (mergeDocumentation
          ([("a/svc1", "svc1", fixDoc "overview.md" "# Overview A\nBody A" "api"),
            ("b/svc2", "svc2", fixDoc "overview.md" "# Overview B\nBody B" "api")].map
            (fun c => ⟨c.1, c.2.1, [("api", [c.2.2])]⟩)) []) "api" = [d]
      ∧ d.filename = "overview.md"
      ∧ d.conflictResolution = some "merged"
      ∧ d.sourceRepos = some ["a/svc1", "b/svc2"]
      ∧ d.metadata = (extractMetadata "# Overview A\nBody A" "overview.md")
      ∧ (linesOf d.content).filter isFromLine
          = ["## From svc1".data, "## From svc2".data] := by
  obtain ⟨d, hd1, hd2, hd3, hd4, hd5, hd6⟩ := c2_amended "api" "overview.md"
    (by decide) (by decide)
    [("a/svc1", "svc1", fixDoc "overview.md" "# Overview A\nBody A" "api"),
     ("b/svc2", "svc2", fixDoc "overview.md" "# Overview B\nBody B" "api")]
    (by decide) (by decide) (by decide) (by decide) (by decide) (by decide)
  refine ⟨d, hd1, hd2, hd3, by simpa using hd4, by simpa using hd5, by simpa using hd6⟩

/-! ## Claim C6, amended -/

/-- A failed prefix comparison against the first part of a
concatenation propagates to the whole. -/
theorem isPrefixOf_append_eq_false (p : List Char) :
    ∀ (l1 l2 : List Char), List.isPrefixOf (p.take l1.length) l1 = false →
      List.isPrefixOf p (l1 ++ l2) = false := by
  induction p with
  | nil =>
    intro l1 l2 h
    simp [List.isPrefixOf] at h
  | cons a as ih =>
    intro l1 l2 h
    cases l1 with
    | nil => simp [List.isPrefixOf] at h
    | cons b bs =>
      simp only [List.length_cons, List.take_succ_cons, List.isPrefixOf,
        List.cons_append] at h ⊢
      cases hab : (a == b)
      · simp
      · simp only [hab, Bool.true_and] at h ⊢
        exact ih bs l2 h

theorem headingTexts_nil : headingTexts [] = [] := rfl

theorem headingTexts_append (l1 l2 : List String) :
    headingTexts (l1 ++ l2) = headingTexts l1 ++ headingTexts l2 := by
  simp [headingTexts, List.filterMap_append]

theorem headingTexts_cons_none (l : String) (rest : List String)
    (h : List.isPrefixOf "### ".data l.data = false) :
    headingTexts (l :: rest) = headingTexts rest := by
  simp only [headingTexts, List.filterMap_cons, h, Bool.false_eq_true, if_false]

theorem headingTexts_cons_some (l : String) (rest : List String)
    (h : List.isPrefixOf "### ".data l.data = true) :
    headingTexts (l :: rest) = l.data.drop 4 :: headingTexts rest := by
  simp only [headingTexts, List.filterMap_cons, h, if_true]

theorem flatten_map_nil {α β : Type} (l : List α) :
    (l.map (fun _ => ([] : List β))).flatten = [] := by
  induction l with
  | nil => rfl
  | cons x xs ih => simp [ih]

theorem headingTexts_docLines (sectionName : String) (d : Document) :
    headingTexts (docLines sectionName d) = [] := by
  have hA : ∀ (x : String), List.isPrefixOf "### ".data ("- [" ++ x).data = false := by
    intro x
    rw [strData_append]
    exact isPrefixOf_append_eq_false _ _ _ (by decide)
  have hB : ∀ (x : String), List.isPrefixOf "### ".data ("  - Status: " ++ x).data = false := by
    intro x
    rw [strData_append]
    exact isPrefixOf_append_eq_false _ _ _ (by decide)
  have hC : ∀ (x : String), List.isPrefixOf "### ".data ("  - *(" ++ x).data = false := by
    intro x
    rw [strData_append]
    exact isPrefixOf_append_eq_false _ _ _ (by decide)
  unfold docLines
  cases hs : d.metadata.status with
  | none =>
    cases hc : d.conflictResolution with
    | none => simp [headingTexts, hA]
    | some s =>
      by_cases hse : s = ""
      · simp [headingTexts, hse, hA]
      · simp [headingTexts, hse, hA, hC]
  | some s =>
    by_cases hse : s = ""
    · cases hc : d.conflictResolution with
      | none => simp [headingTexts, hse, hA]
      | some s2 =>
        by_cases hse2 : s2 = ""
        · simp [headingTexts, hse, hse2, hA]
        · simp [headingTexts, hse, hse2, hA, hC]
    · cases hc : d.conflictResolution with
      | none => simp [headingTexts, hse, hA, hB]
      | some s2 =>
        by_cases hse2 : s2 = ""
        · simp [headingTexts, hse, hse2, hA, hB]
        · simp [headingTexts, hse, hse2, hA, hB, hC]

theorem headingTexts_repoGroupLines (sectionName : String) (rg : String × List Document) :
    headingTexts (repoGroupLines sectionName rg) = [] := by
  have hstar : ∀ (x : String), List.isPrefixOf "### ".data ("**" ++ x).data = false := by
    intro x
    rw [strData_append]
    exact isPrefixOf_append_eq_false _ _ _ (by decide)
  unfold repoGroupLines
  rw [headingTexts_append, headingTexts_append]
  rw [headingTexts_cons_none ("**" ++ lastSeg rg.1 ++ "**:") [""]
      (by
        rw [strData_append, strData_append, List.append_assoc]
        exact isPrefixOf_append_eq_false _ _ _ (by decide)),
    headingTexts_cons_none "" [] (by decide), headingTexts_nil]
  have hflat : headingTexts (((sortByKey (fun d => d.filename) rg.2).map
      (docLines sectionName)).flatten) = [] := by
    unfold headingTexts
    rw [filterMap_flatten]
    rw [List.map_map]
    have : ((fun l => l.filterMap (fun l => if List.isPrefixOf "### ".data l.data
        then some (l.data.drop 4) else none)) ∘ docLines sectionName)
        = fun (d : Document) => ([] : List (List Char)) := by
      funext d
      exact headingTexts_docLines sectionName d
    rw [this, flatten_map_nil]
  rw [hflat]
  simp

theorem headingTexts_sectionBlock (merged : List (String × List Document))
    (sectionName : String) :
    headingTexts (sectionBlock merged sectionName) = [(capitalizeSection sectionName).data] := by
  unfold sectionBlock
  rw [headingTexts_append]
  have hhead : headingTexts ["### " ++ capitalizeSection sectionName, ""]
      = [(capitalizeSection sectionName).data] := by
    have htrue : List.isPrefixOf "### ".data ("### " ++ capitalizeSection sectionName).data
        = true := by
      rw [strData_append]
      exact isPrefixOf_self_append _ _
    rw [headingTexts_cons_some _ _ htrue, headingTexts_cons_none "" [] (by decide),
      headingTexts_nil]
    rw [strData_append]
    rw [show ("### " : String).data = ['#', '#', '#', ' '] from rfl]
    rw [show (4 : Nat) = (['#', '#', '#', ' '] : List Char).length from rfl, List.drop_left]
  rw [hhead]
  have hflat : headingTexts (((buildByRepo (lookupD merged sectionName)).map
      (repoGroupLines sectionName)).flatten) = [] := by
    unfold headingTexts
    rw [filterMap_flatten, List.map_map]
    have : ((fun l => l.filterMap (fun l => if List.isPrefixOf "### ".data l.data
        then some (l.data.drop 4) else none)) ∘ repoGroupLines sectionName)
        = fun (rg : String × List Document) => ([] : List (List Char)) := by
      funext rg
      exact headingTexts_repoGroupLines sectionName rg
    rw [this, flatten_map_nil]
  rw [hflat]
  simp

theorem headingTexts_repoList :
    ∀ (repos : List String), headingTexts (repos.map (fun r => "- " ++ r)) = [] := by
  intro repos
  induction repos with
  | nil => rfl
  | cons r rest ih =>
    simp only [List.map_cons]
    rw [headingTexts_cons_none _ _ (by
      rw [strData_append]
      exact isPrefixOf_append_eq_false _ _ _ (by decide))]
    exact ih

/-- Claim C6, amended.  The index's总 document count line (line
index 10) equals the sum of the per-section list lengths; the section
subheadings, in emission order, are the MergedCollection's keys sorted
by the embedded comparator — each with its first character uppercased
(`### Adr` for key `adr`), rather than the raw key the claim stated. -/
theorem c6_amended (merged : List (String × List Document)) (repos : List String)
    (dateStr : String) :
    (generateIndexLines merged repos dateStr)[10]?
      = some ("- **Documents**: " ++ toString ((merged.map (fun sd => sd.2.length)).sum))
    ∧ headingTexts (generateIndexLines merged repos dateStr)
      = (sortByKey id (merged.map (fun sd => sd.1))).map
          (fun s => (capitalizeSection s).data) := by
  constructor
  · have hfold : ∀ (l : List (String × List Document)) (n : Nat),
        l.foldl (fun s sd => s + sd.2.length) n = n + (l.map (fun sd => sd.2.length)).sum := by
      intro l
      induction l with
      | nil => intro n; simp
      | cons sd rest ih => intro n; simp [ih]; omega
    have h10 : (generateIndexLines merged repos dateStr)[10]?
        = some ("- **Documents**: "
            ++ toString (merged.foldl (fun s sd => s + sd.2.length) 0)) := rfl
    rw [h10, hfold]
    simp
  · unfold generateIndexLines
    simp only [headingTexts_append]
    have hlit : ∀ (lit x : String),
        List.isPrefixOf ("### ".data.take lit.data.length) lit.data = false →
        List.isPrefixOf "### ".data (lit ++ x).data = false := by
      intro lit x h
      rw [strData_append]
      exact isPrefixOf_append_eq_false _ _ _ h
    have hA : headingTexts ["# Aggregated Documentation Index", "",
        "> Auto-generated by DocFlow Aggregator", "",
        "**Last Updated**: " ++ dateStr, "",
        "## Summary", "",
        "- **Repositories**: " ++ toString repos.length,
        "- **Sections**: " ++ toString merged.length,
        "- **Documents**: " ++ toString (merged.foldl (fun s sd => s + sd.2.length) 0), ""]
        = [] := by
      rw [headingTexts_cons_none _ _ (by decide), headingTexts_cons_none _ _ (by decide),
        headingTexts_cons_none _ _ (by decide), headingTexts_cons_none _ _ (by decide),
        headingTexts_cons_none _ _ (hlit "**Last Updated**: " _ (by decide)),
        headingTexts_cons_none _ _ (by decide), headingTexts_cons_none _ _ (by decide),
        headingTexts_cons_none _ _ (by decide),
        headingTexts_cons_none _ _ (hlit "- **Repositories**: " _ (by decide)),
        headingTexts_cons_none _ _ (hlit "- **Sections**: " _ (by decide)),
        headingTexts_cons_none _ _ (hlit "- **Documents**: " _ (by decide)),
        headingTexts_cons_none _ _ (by decide), headingTexts_nil]
    have hB1 : headingTexts ["## Source Repositories", ""] = [] := by decide
    have hmap := headingTexts_repoList repos
    have hB2 : headingTexts [""] = [] := by decide
    have hC1 : headingTexts ["## Documentation Sections", ""] = [] := by decide
    have hLegend : headingTexts ["## Legend", "",
      "- **prefixed**: Document filename prefixed with repo name to avoid conflicts",
      "- **merged**: Content from multiple repos merged into single document", ""] = [] := by
      decide
    have hsections : headingTexts (((sortByKey id (merged.map (fun sd => sd.1))).map
        (sectionBlock merged)).flatten)
        = (sortByKey id (merged.map (fun sd => sd.1))).map
            (fun s => (capitalizeSection s).data) := by
      unfold headingTexts
      rw [filterMap_flatten, List.map_map]
      have : ((fun l => l.filterMap (fun l => if List.isPrefixOf "### ".data l.data
          then some (l.data.drop 4) else none)) ∘ sectionBlock merged)
          = fun (s : String) => [(capitalizeSection s).data] := by
        funext s
        exact headingTexts_sectionBlock merged s
      rw [this, flatten_map_singleton]
    simp [hA, hB1, hmap, hB2, hC1, hLegend, hsections]

/-! ## Claim C9, amended: spec-side definitions -/

/-- Spec-side reading of a single line as a level-1 heading: a `#`,
then at least one whitespace character, then nonempty text; the heading
text is the remainder of the line after the leading whitespace run. -/
def lineTitle : List Char → Option (List Char)
  | '#' :: rest =>
    if maxWsRun rest = 0 then none
    else if (rest.drop (maxWsRun rest)).isEmpty then none
    else some (rest.drop (maxWsRun rest))
  | _ => none

/-- Spec-side "first level-1 heading" over a list of lines. -/
def firstH1 : List (List Char) → Option (List Char)
  | [] => none
  | l :: rest =>
    match lineTitle l with
    | some t => some t
    | none => firstH1 rest

theorem firstTitle_cons (p : List Char) (ps : List (List Char)) :
    firstTitle (p :: ps) = match titleAt p with
      | some t => some t
      | none => firstTitle ps := rfl

theorem firstH1_cons (l : List Char) (ls : List (List Char)) :
    firstH1 (l :: ls) = match lineTitle l with
      | some t => some t
      | none => firstH1 ls := rfl

theorem titleAt_eq (c : Char) (x : List Char) :
    titleAt (c :: x) = if c = '#' then wsCapSearch 1 x (maxWsRun x) else none := by
  by_cases h : c = '#'
  · subst h
    rw [if_pos rfl]
    rfl
  · rw [if_neg h]
    unfold titleAt
    split
    · rename_i heq
      injection heq with h1 h2
      exact absurd h1 h
    · rfl

theorem lineTitle_eq (c : Char) (x : List Char) :
    lineTitle (c :: x) =
      (if c = '#' then
        (if maxWsRun x = 0 then none
         else if (x.drop (maxWsRun x)).isEmpty then none
         else some (x.drop (maxWsRun x)))
       else none) := by
  by_cases h : c = '#'
  · subst h
    rw [if_pos rfl]
    rfl
  · rw [if_neg h]
    unfold lineTitle
    split
    · rename_i heq
      injection heq with h1 h2
      exact absurd h1 h
    · rfl

theorem dropWhile_cons_head (p : α → Bool) (l : List α) (a : α) (t : List α)
    (h : l.dropWhile p = a :: t) : p a = false := by
  induction l with
  | nil => cases h
  | cons x xs ih =>
    by_cases hx : p x = true
    · rw [List.dropWhile_cons, if_pos hx] at h
      exact ih h
    · rw [List.dropWhile_cons, if_neg hx] at h
      injection h with h1 h2
      rw [← h1]
      simpa using hx

theorem takeWhile_all_eq (p : α → Bool) (l : List α) (h : ∀ a ∈ l, p a = true) :
    l.takeWhile p = l := by
  induction l with
  | nil => rfl
  | cons x xs ih =>
    rw [List.takeWhile_cons, if_pos (h x (by simp)), ih (fun a ha => h a (by simp [ha]))]

theorem takeWhile_append_all (p : α → Bool) (l1 l2 : List α) (h : ∀ a ∈ l1, p a = true) :
    (l1 ++ l2).takeWhile p = l1 ++ l2.takeWhile p := by
  induction l1 with
  | nil => rfl
  | cons x xs ih =>
    rw [List.cons_append, List.takeWhile_cons, if_pos (h x (by simp)),
      ih (fun a ha => h a (by simp [ha])), List.cons_append]

theorem takeWhile_append_stop (p : α → Bool) (l1 l2 : List α)
    (h : l1.dropWhile p ≠ []) : (l1 ++ l2).takeWhile p = l1.takeWhile p := by
  induction l1 with
  | nil => exact absurd rfl h
  | cons x xs ih =>
    by_cases hx : p x = true
    · rw [List.cons_append, List.takeWhile_cons, if_pos hx, List.takeWhile_cons, if_pos hx,
        ih (by rwa [List.dropWhile_cons, if_pos hx] at h)]
    · rw [List.cons_append, List.takeWhile_cons, if_neg hx, List.takeWhile_cons, if_neg hx]

theorem drop_takeWhile_length (p : α → Bool) (l : List α) :
    l.drop (l.takeWhile p).length = l.dropWhile p := by
  calc l.drop (l.takeWhile p).length
      = (l.takeWhile p ++ l.dropWhile p).drop (l.takeWhile p).length := by
        rw [List.takeWhile_append_dropWhile]
    _ = l.dropWhile p := List.drop_left _ _

theorem dropWhile_ne_nil_of_any (p : α → Bool) (l : List α)
    (h : l.any (fun a => !(p a)) = true) : l.dropWhile p ≠ [] := by
  intro hnil
  rw [List.dropWhile_eq_nil_iff] at hnil
  simp only [List.any_eq_true] at h
  obtain ⟨a, ha, hpa⟩ := h
  have := hnil a ha
  simp [this] at hpa

theorem wsCapSearch_one_zero (cs : List Char) : wsCapSearch 1 cs 0 = none := by
  simp [wsCapSearch]

theorem wsCapSearch_one_succ (cs : List Char) (k : Nat)
    (hne : ((cs.drop (k+1)).takeWhile (fun c => !(c = '\n'))).isEmpty = false) :
    wsCapSearch 1 cs (k+1) = some ((cs.drop (k+1)).takeWhile (fun c => !(c = '\n'))) := by
  unfold wsCapSearch
  rw [if_neg (by omega)]
  simp [hne]

theorem wsCapSearch_clean (a b : List Char)
    (hnl : a.contains '\n' = false)
    (hx : a.any (fun c => !(isWs c)) = true)
    (hb : b = [] ∨ ∃ r, b = '\n' :: r) :
    wsCapSearch 1 (a ++ b) (maxWsRun (a ++ b)) =
      if maxWsRun a = 0 then none else some (a.drop (maxWsRun a)) := by
  have hdnn : a.dropWhile isWs ≠ [] := dropWhile_ne_nil_of_any isWs a hx
  have hmw : maxWsRun (a ++ b) = maxWsRun a := by
    unfold maxWsRun
    rw [takeWhile_append_stop isWs a b hdnn]
  have hja : maxWsRun a ≤ a.length := (List.takeWhile_sublist isWs).length_le
  have hdt : a.drop (maxWsRun a) = a.dropWhile isWs := drop_takeWhile_length isWs a
  have hmem : ∀ c ∈ a.drop (maxWsRun a), (fun c => !(c = '\n')) c = true := by
    intro c hc
    rw [hdt] at hc
    have hca : c ∈ a := (List.dropWhile_sublist isWs).subset hc
    have hne : ¬ c = '\n' := by
      intro he
      subst he
      rw [(containsChar_iff a '\n').mpr hca] at hnl
      cases hnl
    simp [hne]
  have hcap : ((a ++ b).drop (maxWsRun a)).takeWhile (fun c => !(c = '\n'))
      = a.drop (maxWsRun a) := by
    rw [List.drop_append_of_le_length hja]
    rcases hb with hb | ⟨r, hb⟩
    · subst hb
      rw [List.append_nil]
      exact takeWhile_all_eq _ _ hmem
    · subst hb
      rw [takeWhile_append_all _ _ _ hmem, List.takeWhile_cons, if_neg (by simp),
        List.append_nil]
  have hne : (a.drop (maxWsRun a)).isEmpty = false := by
    rw [hdt]
    cases hdd : a.dropWhile isWs with
    | nil => exact absurd hdd hdnn
    | cons y ys => rfl
  rw [hmw]
  cases hj : maxWsRun a with
  | zero => rw [wsCapSearch_one_zero, if_pos rfl]
  | succ k =>
    rw [hj] at hcap hne
    rw [if_neg (by omega)]
    have hne2 : (((a ++ b).drop (k+1)).takeWhile (fun c => !(c = '\n'))).isEmpty = false := by
      rw [hcap]
      exact hne
    rw [wsCapSearch_one_succ (a ++ b) k hne2, hcap]

theorem titleAt_append_line (l0 b : List Char)
    (hnl : l0.contains '\n' = false)
    (hb : b = [] ∨ ∃ r, b = '\n' :: r)
    (hcl : l0.head? = some '#' → (l0.drop 1).any (fun c => !(isWs c)) = true) :
    titleAt (l0 ++ b) = lineTitle l0 := by
  cases l0 with
  | nil =>
    rcases hb with hb | ⟨r, hb⟩
    · subst hb
      rfl
    · subst hb
      rw [List.nil_append, titleAt_eq, if_neg (by decide)]
      rfl
  | cons c a =>
    rw [List.cons_append, titleAt_eq, lineTitle_eq]
    by_cases hc : c = '#'
    · rw [if_pos hc, if_pos hc]
      have hnla : a.contains '\n' = false := by
        by_cases hcc : a.contains '\n' = true
        · have hmem : '\n' ∈ c :: a := by
            simp [(containsChar_iff a '\n').mp hcc]
          rw [(containsChar_iff (c :: a) '\n').mpr hmem] at hnl
          cases hnl
        · simpa using hcc
      have hxa : a.any (fun ch => !(isWs ch)) = true := by
        have := hcl (by simp [hc])
        simpa using this
      rw [wsCapSearch_clean a b hnla hxa hb]
      cases hj : maxWsRun a with
      | zero => rw [if_pos rfl, if_pos rfl]
      | succ k =>
        rw [if_neg (by omega), if_neg (by omega)]
        have hcapne : (a.drop (maxWsRun a)).isEmpty = false := by
          have hdt2 : a.drop (maxWsRun a) = a.dropWhile isWs := drop_takeWhile_length isWs a
          rw [hdt2]
          cases hdd : a.dropWhile isWs with
          | nil => exact absurd hdd (dropWhile_ne_nil_of_any isWs a hxa)
          | cons y ys => rfl
        rw [hj] at hcapne
        rw [if_neg (by simp [hcapne])]
    · rw [if_neg hc, if_neg hc]

theorem lineStartsAux_eq_nil (cs : List Char) (h : cs.contains '\n' = false) :
    lineStartsAux cs = [] := by
  induction cs with
  | nil => rfl
  | cons c rest ih =>
    simp only [List.contains_cons, Bool.or_eq_false_iff] at h
    have hc : ¬ c = '\n' := by
      intro hc
      rw [hc] at h
      simp at h
    simp only [lineStartsAux, if_neg hc]
    exact ih h.2

theorem lineStartsAux_append (l0 rest : List Char) (h : l0.contains '\n' = false) :
    lineStartsAux (l0 ++ '\n' :: rest) = rest :: lineStartsAux rest := by
  induction l0 with
  | nil => simp [lineStartsAux]
  | cons c t ih =>
    simp only [List.contains_cons, Bool.or_eq_false_iff] at h
    have hc : ¬ c = '\n' := by
      intro hc
      rw [hc] at h
      simp at h
    simp only [List.cons_append, lineStartsAux, if_neg hc]
    exact ih h.2

theorem matchTitle_append (l0 rest : List Char) (hnl0 : l0.contains '\n' = false)
    (hcl0 : l0.head? = some '#' → (l0.drop 1).any (fun c => !(isWs c)) = true) :
    matchTitle (l0 ++ '\n' :: rest) =
      match lineTitle l0 with
      | some t => some t
      | none => matchTitle rest := by
  show firstTitle ((l0 ++ '\n' :: rest) :: lineStartsAux (l0 ++ '\n' :: rest)) = _
  rw [lineStartsAux_append l0 rest hnl0, firstTitle_cons,
    titleAt_append_line l0 ('\n' :: rest) hnl0 (Or.inr ⟨rest, rfl⟩) hcl0]
  rfl

theorem matchTitle_eq_firstH1 (n : Nat) :
    ∀ cs : List Char, cs.length ≤ n →
    (∀ l ∈ splitOnChar '\n' cs, l.head? = some '#' → (l.drop 1).any (fun c => !(isWs c)) = true) →
    matchTitle cs = firstH1 (splitOnChar '\n' cs) := by
  induction n with
  | zero =>
    intro cs hlen hclean
    cases cs with
    | nil => rfl
    | cons c t => simp at hlen
  | succ n ih =>
    intro cs hlen hclean
    cases hdw : cs.dropWhile (fun c => !(c = '\n')) with
    | nil =>
      have hall : ∀ a ∈ cs, (fun c => !(c = '\n')) a = true := List.dropWhile_eq_nil_iff.mp hdw
      have hnl : cs.contains '\n' = false := by
        by_cases hcc : cs.contains '\n' = true
        · have := hall '\n' ((containsChar_iff cs '\n').mp hcc)
          simp at this
        · simpa using hcc
      have hsp : splitOnChar '\n' cs = [cs] := splitOnChar_of_not_contains '\n' cs hnl
      have htit : titleAt cs = lineTitle cs := by
        have h := titleAt_append_line cs [] hnl (Or.inl rfl)
          (hclean cs (by rw [hsp]; exact List.mem_cons_self cs []))
        rwa [List.append_nil] at h
      show firstTitle (cs :: lineStartsAux cs) = _
      rw [lineStartsAux_eq_nil cs hnl, hsp, firstTitle_cons, firstH1_cons, htit]
      cases lineTitle cs with
      | some t => rfl
      | none => rfl
    | cons c rest =>
      have hc : c = '\n' := by
        have := dropWhile_cons_head (fun c => !(c = '\n')) cs c rest hdw
        simpa using this
      subst hc
      have hdecomp : cs = cs.takeWhile (fun c => !(c = '\n')) ++ '\n' :: rest := by
        rw [← hdw]
        exact (List.takeWhile_append_dropWhile ..).symm
      have hnl0 : (cs.takeWhile (fun c => !(c = '\n'))).contains '\n' = false := by
        by_cases hcc : (cs.takeWhile (fun c => !(c = '\n'))).contains '\n' = true
        · have := List.mem_takeWhile_imp ((containsChar_iff _ '\n').mp hcc)
          simp at this
        · simpa using hcc
      have hsp : splitOnChar '\n' cs
          = cs.takeWhile (fun c => !(c = '\n')) :: splitOnChar '\n' rest := by
        conv_lhs => rw [hdecomp]
        rw [splitOnChar_append_cons, splitOnChar_of_not_contains '\n' _ hnl0]
        rfl
      have hlen2 : rest.length ≤ n := by
        have h1 : cs.length
            = (cs.takeWhile (fun c => !(c = '\n'))).length + ('\n' :: rest).length := by
          conv_lhs => rw [hdecomp]
          exact List.length_append ..
        simp only [List.length_cons] at h1
        omega
      have hclean2 : ∀ l ∈ splitOnChar '\n' rest,
          l.head? = some '#' → (l.drop 1).any (fun c => !(isWs c)) = true := by
        intro l hm
        exact hclean l (by rw [hsp]; exact List.mem_cons_of_mem _ hm)
      have hcl0 := hclean (cs.takeWhile (fun c => !(c = '\n')))
        (by rw [hsp]; exact List.mem_cons_self _ _)
      rw [hsp]
      conv_lhs => rw [hdecomp]
      rw [matchTitle_append _ rest hnl0 hcl0, firstH1_cons, ih rest hlen2 hclean2]

/-- Claim C9, amended.  On content whose every line beginning with `#`
has some non-whitespace character after it (ruling out the regex's
pathological cross-line matches), the extracted title equals the
trimmed text of the first level-1 heading line when one exists and the
empty string otherwise — never the filename; the filename fallback
(the filename with a first `.md` occurrence removed) is applied later
by the renderers: `docLines` (for the index) and `mergeDocumentContent`
substitute it exactly when the stored title is empty. -/
theorem c9_amended (content filename : String)
    (hclean : ∀ l ∈ splitOnChar '\n' content.data,
      l.head? = some '#' → (l.drop 1).any (fun c => !(isWs c)) = true) :
    ((extractMetadata content filename).title =
      (match firstH1 (splitOnChar '\n' content.data) with
       | some t => String.mk (trimChars t)
       | none => ""))
    ∧ (∀ (s : String) (doc : Document), doc.metadata.title = "" →
        (docLines s doc).head? =
          some ("- [" ++ String.mk (replaceFirstOcc ".md".data [] doc.filename.data)
            ++ "](" ++ (s ++ "/" ++ doc.filename) ++ ")"))
    ∧ (∀ (docs : List Document) (f : String),
        ((docs.head?).map (fun d => d.metadata.title)).getD "" = "" →
        mergeDocumentContent docs f =
          joinLines (["# " ++ String.mk (replaceFirstOcc ".md".data [] f.data), "",
            "> **Note**: This document has been aggregated from multiple repositories.", ""]
           ++ mergeBlocks docs)) := by
  refine ⟨?_, ?_, ?_⟩
  · rw [extractMetadata_title_eq,
      matchTitle_eq_firstH1 content.data.length content.data (Nat.le_refl _) hclean]
  · intro s doc h
    simp only [docLines]
    rw [if_pos h]
    rfl
  · intro docs f h
    simp only [mergeDocumentContent]
    rw [if_pos h]

/-- Witness instantiating `c9_amended` on concrete clean content. -/
theorem c9_amended_witness :
    (extractMetadata "# Hello  \nbody" "foo.md").title = "Hello" :=
  ((c9_amended "# Hello  \nbody" "foo.md" (by decide)).1).trans (by decide)

end DocFlow
